import Mathlib

/-!
Verification of the ledger-import core of a household-finance tracker.

The definitions below are a shallow embedding of the TypeScript sources:
  * `src/lib/csv-parser.ts`   — line tokenizer, combined-ledger parser,
    asset-ledger parser, monthly snapshot aggregator, asset-type classifier;
  * `src/app/api/import/route.ts` — the import orchestrator (`POST`).

JavaScript strings are modelled as Lean `String`/`List Char`, JavaScript
numbers occurring here (integers only) as `Int`, nullable columns as
`Option`, and the database tables as Lean lists.  Code that can throw at
run time (the asset parser indexes column 7 after only checking for 6
columns) is modelled with `Option`, `none` standing for the thrown
`TypeError`.
-/

namespace Kakei

/-! ### JavaScript string primitives -/

/-- Whitespace for the purposes of `String.prototype.trim` and of
`parseInt`'s leading-whitespace skip (the characters that actually occur
in CSV exports). -/
def isJsWhitespace (c : Char) : Bool :=
  c = ' ' || c = '\t' || c = '\n' || c = '\r'

/-- `s.trim()` on a character list. -/
def trimChars (s : List Char) : List Char :=
  ((s.dropWhile isJsWhitespace).reverse.dropWhile isJsWhitespace).reverse

/-- `s.trim()`. -/
def trimStr (s : String) : String := ⟨trimChars s.data⟩

/-- Split a character list at every occurrence of `sep` (like
`String.prototype.split` with a single-character separator). -/
def splitOnChar (sep : Char) : List Char → List (List Char)
  | [] => [[]]
  | c :: rest =>
    let parts := splitOnChar sep rest
    if c = sep then [] :: parts
    else match parts with
      | [] => [[c]]
      | p :: ps => (c :: p) :: ps

/-- `\r\n` and lone `\r` normalized to `\n` (source: two `replace` calls). -/
def normalizeNewlines : List Char → List Char
  | [] => []
  | '\r' :: '\n' :: rest => '\n' :: normalizeNewlines rest
  | '\r' :: rest => '\n' :: normalizeNewlines rest
  | c :: rest => c :: normalizeNewlines rest

/-- `splitLines`: strip a leading BOM, normalize line endings, split on
newline. -/
def splitLines (text : String) : List String :=
  let chars :=
    match text.data with
    | '﻿' :: rest => rest
    | cs => cs
  (splitOnChar '\n' (normalizeNewlines chars)).map (fun l => (⟨l⟩ : String))

/-- Inner loop of `parseCSVLine`: walk the characters with an
"inside quotes" flag, treating `""` as an escaped quote and splitting on
unquoted commas; every finished field is trimmed. -/
def parseCSVLineAux : List Char → Bool → List Char → List String → List String
  | [], _, current, fields => fields ++ [⟨trimChars current⟩]
  | '"' :: '"' :: rest2, true, current, fields =>
    parseCSVLineAux rest2 true (current ++ ['"']) fields
  | '"' :: rest, true, current, fields => parseCSVLineAux rest false current fields
  | '"' :: rest, false, current, fields => parseCSVLineAux rest true current fields
  | ',' :: rest, true, current, fields => parseCSVLineAux rest true (current ++ [',']) fields
  | ',' :: rest, false, current, fields =>
    parseCSVLineAux rest false [] (fields ++ [⟨trimChars current⟩])
  | c :: rest, inQuote, current, fields =>
    parseCSVLineAux rest inQuote (current ++ [c]) fields

/-- `parseCSVLine`: split a CSV line into trimmed fields. -/
def parseCSVLine (line : String) : List String :=
  parseCSVLineAux line.data false [] []

/-! ### JavaScript number parsing -/

/-- Numeric value of a (non-empty) run of decimal digit characters. -/
def digitsToNat (ds : List Char) : Nat :=
  ds.foldl (fun acc c => acc * 10 + (c.toNat - 48)) 0

/-- Value of the maximal digit prefix, `none` when there is no digit
(`parseInt` returns `NaN` then). -/
def digitsPrefixVal (s : List Char) : Option Nat :=
  let ds := s.takeWhile Char.isDigit
  if ds.isEmpty then none else some (digitsToNat ds)

/-- `parseInt(s, 10)` after the whitespace skip: read an optional sign
and then a maximal run of decimal digits; `none` models the `NaN`
result. -/
def jsParseIntSigned : List Char → Option Int
  | [] => none
  | c :: rest =>
    if c = '-' then (digitsPrefixVal rest).map (fun n => -(n : Int))
    else if c = '+' then (digitsPrefixVal rest).map (fun n => (n : Int))
    else (digitsPrefixVal (c :: rest)).map (fun n => (n : Int))

/-- `parseInt(s, 10)` proper: strip the leading whitespace first. -/
def jsParseInt (s : List Char) : Option Int :=
  jsParseIntSigned (s.dropWhile isJsWhitespace)

/-- `toInt`: remove every comma, `parseInt`, and map `NaN` to `0`. -/
def toInt (v : String) : Int :=
  (jsParseInt (v.data.filter (fun c => c ≠ ','))).getD 0

/-- `Number(s)` after whitespace trimming: empty string is `0`, an
optional sign followed by digits only is that integer, anything else is
`NaN` (`none`). -/
def jsNumberTrimmed : List Char → Option Int
  | [] => some 0
  | c :: rest =>
    if c = '-' then
      if rest ≠ [] ∧ rest.all Char.isDigit then some (-(digitsToNat rest : Int)) else none
    else if c = '+' then
      if rest ≠ [] ∧ rest.all Char.isDigit then some ((digitsToNat rest : Int)) else none
    else if (c :: rest).all Char.isDigit then some ((digitsToNat (c :: rest) : Int)) else none

/-- `Number(s)` for the strings that occur in period keys. -/
def jsNumber (s : List Char) : Option Int :=
  jsNumberTrimmed (s.dropWhile isJsWhitespace)

/-! ### Decimal rendering (JavaScript template literals) -/

/-- The character of a decimal digit. -/
def digitChar (d : Nat) : Char := Char.ofNat (48 + d)

/-- Fuel-driven decimal digit list (most significant first); the fuel is
always larger than the number so the `[]` base case is never reached. -/
def natToDigitsAux : Nat → Nat → List Char
  | 0, _ => []
  | fuel + 1, n =>
    if n < 10 then [digitChar n]
    else natToDigitsAux fuel (n / 10) ++ [digitChar (n % 10)]

/-- Decimal digits of a natural number, most significant first. -/
def natToDigits (n : Nat) : List Char := natToDigitsAux (n + 1) n

/-- `String(i)` / template-literal rendering of an integer. -/
def intToStr (i : Int) : String :=
  if i < 0 then ⟨'-' :: natToDigits i.natAbs⟩ else ⟨natToDigits i.natAbs⟩

/-- `s.padStart(2, "0")`. -/
def padStart2 (s : List Char) : List Char :=
  if 2 ≤ s.length then s else List.replicate (2 - s.length) '0' ++ s

/-! ### Date normalizer -/

/-- Try the pattern `\d{4}年\d{2}月\d{2}日` at the head of the character
list, returning the three digit groups. -/
def matchDateAt : List Char → Option (List Char × List Char × List Char)
  | y1 :: y2 :: y3 :: y4 :: '年' :: m1 :: m2 :: '月' :: d1 :: d2 :: '日' :: _ =>
    if [y1, y2, y3, y4, m1, m2, d1, d2].all Char.isDigit then
      some ([y1, y2, y3, y4], [m1, m2], [d1, d2])
    else none
  | _ => none

/-- Leftmost match of the unanchored pattern `(\d{4})年(\d{2})月(\d{2})日`. -/
def findDate : List Char → Option (List Char × List Char × List Char)
  | [] => none
  | c :: rest =>
    match matchDateAt (c :: rest) with
    | some g => some g
    | none => findDate rest

/-- `parseJapaneseDate`: "2026年02月01日(日)" becomes "2026-02-01"; the
empty string signals no match. -/
def parseJapaneseDate (raw : String) : String :=
  match findDate raw.data with
  | none => ""
  | some (y, m, d) => ⟨y ++ '-' :: m ++ '-' :: d⟩

/-- The anchored test `/^\d{4}年/`. -/
def startsWithYear (s : String) : Bool :=
  match s.data with
  | a :: b :: c :: d :: '年' :: _ => [a, b, c, d].all Char.isDigit
  | _ => false

/-! ### Data model -/

/-- `ParsedTransaction` (csv-parser.ts). -/
structure ParsedTransaction where
  date : String
  year : Int
  month : Int
  type : String
  category : String
  itemName : String
  amount : Int
  expenseAmount : Int
  incomeAmount : Int
  assetName : String
  tag : String
  memo : String
  excludeFromPl : Bool
deriving DecidableEq, Repr

/-- `ParsedAssetTransaction` (csv-parser.ts). -/
structure ParsedAssetTransaction where
  assetName : String
  date : String
  year : Int
  month : Int
  type : String
  category : String
  itemName : String
  amount : Int
  balance : Int
  isInitial : Bool
deriving DecidableEq, Repr

/-- `MonthlyAssetSnapshot` (csv-parser.ts). -/
structure MonthlyAssetSnapshot where
  assetName : String
  year : Int
  month : Int
  closingBalance : Int
  openingBalance : Int
  assetType : String
deriving DecidableEq, Repr

/-! ### Combined-ledger parser -/

/-- One iteration of the `parseCombinedReport` loop: `none` for every
`continue`, `some` for a pushed record.  Fields are destructured at
indices 0,1,2,3,5,6,7,8,9,10 (index 4, the raw amount column, is unused).
`parseInt` on the two slices of the normalized date cannot return `NaN`
because `parseJapaneseDate` produces four digits, a dash, two digits, a
dash and two digits; the `none` fallback arm is dead code. -/
def parseCombinedRow (fromYear : Int) (line : String) : Option ParsedTransaction :=
  if (trimStr line).data.isEmpty then none else
  let cols := parseCSVLine line
  if cols.length < 11 then none else
  let rawDate := cols.getD 0 ""
  if ¬ startsWithYear rawDate then none else
  let dateStr := parseJapaneseDate rawDate
  if dateStr = "" then none else
  match jsParseInt (dateStr.data.take 4), jsParseInt ((dateStr.data.drop 5).take 2) with
  | some year, some month =>
    if year < fromYear then none else
    let expenseAmount := toInt (cols.getD 5 "")
    let incomeAmount := toInt (cols.getD 6 "")
    let amount := if expenseAmount ≠ 0 then expenseAmount else incomeAmount
    let excludeFromPl := cols.getD 10 "" ≠ "-"
    some {
      date := dateStr
      year := year
      month := month
      type := trimStr (cols.getD 1 "")
      category := trimStr (cols.getD 2 "")
      itemName := trimStr (cols.getD 3 "")
      amount := amount
      expenseAmount := expenseAmount
      incomeAmount := incomeAmount
      assetName := trimStr (cols.getD 7 "")
      tag := trimStr (cols.getD 8 "")
      memo := trimStr (cols.getD 9 "")
      excludeFromPl := excludeFromPl
    }
  | _, _ => none

/-- `parseCombinedReport`: tokenize into lines and run the row loop. -/
def parseCombinedReport (csvText : String) (fromYear : Int := 2019) :
    List ParsedTransaction :=
  (splitLines csvText).filterMap (parseCombinedRow fromYear)

/-! ### Asset-ledger parser

The source guards each row only with `cols.length < 6` but reads
`cols[6]` (the seventh column, the balance) in both the initial-balance
branch and the transaction branch; on a six-column row `cols[6]` is
`undefined` and `toInt` throws a `TypeError`.  The thrown exception is
modelled by the `none` result. -/

/-- The loop of `parseAssetReport`, threading the current-account cursor
and the accumulated results through the lines. -/
def parseAssetLines (fromYear : Int) :
    List String → String → List ParsedAssetTransaction →
    Option (List ParsedAssetTransaction)
  | [], _, results => some results
  | line :: rest, currentAsset, results =>
    if (trimStr line).data.isEmpty then
      parseAssetLines fromYear rest currentAsset results
    else
    let cols := parseCSVLine line
    if cols.length < 6 then parseAssetLines fromYear rest currentAsset results else
    let col0 := trimStr (cols.getD 0 "")
    let col1 := trimStr (cols.getD 1 "")
    if col0 = "名前" then parseAssetLines fromYear rest currentAsset results else
    let currentAsset := if col0 ≠ "" ∧ ¬ startsWithYear col0 then col0 else currentAsset
    if currentAsset = "" then parseAssetLines fromYear rest currentAsset results else
    if col1 = "-" ∧ cols.getD 2 "" = "-" then
      match cols[6]? with
      | none => none
      | some balRaw =>
        parseAssetLines fromYear rest currentAsset (results ++ [{
          assetName := currentAsset, date := "", year := 0, month := 0,
          type := "initial", category := "", itemName := "初期残高",
          amount := 0, balance := toInt balRaw, isInitial := true }])
    else
    if ¬ startsWithYear col1 then parseAssetLines fromYear rest currentAsset results else
    let dateStr := parseJapaneseDate col1
    if dateStr = "" then parseAssetLines fromYear rest currentAsset results else
    match jsParseInt (dateStr.data.take 4), jsParseInt ((dateStr.data.drop 5).take 2) with
    | some year, some month =>
      if year < fromYear then parseAssetLines fromYear rest currentAsset results else
      match cols[6]? with
      | none => none
      | some balRaw =>
        parseAssetLines fromYear rest currentAsset (results ++ [{
          assetName := currentAsset, date := dateStr, year := year, month := month,
          type := trimStr (cols.getD 2 ""), category := trimStr (cols.getD 3 ""),
          itemName := trimStr (cols.getD 4 ""), amount := toInt (cols.getD 5 ""),
          balance := toInt balRaw, isInitial := false }])
    | _, _ => parseAssetLines fromYear rest currentAsset results

/-- `parseAssetReport`; `none` models the `TypeError` thrown on a
six-column data row. -/
def parseAssetReport (csvText : String) (fromYear : Int := 2019) :
    Option (List ParsedAssetTransaction) :=
  parseAssetLines fromYear (splitLines csvText) "" []

/-! ### Asset-type classifier -/

/-- Whether the first list starts with the second. -/
def startsWithChars : List Char → List Char → Bool
  | _, [] => true
  | [], _ :: _ => false
  | a :: as, b :: bs => a == b && startsWithChars as bs

/-- Whether `hay` contains `pat` as a contiguous run. -/
def containsSub (hay pat : List Char) : Bool :=
  match hay with
  | [] => pat.isEmpty
  | _ :: rest => startsWithChars hay pat || containsSub rest pat

/-- Whether `name` contains any of the given literal substrings (each
regex in the source is an alternation of literals used with `.test`). -/
def containsAny (name : String) (pats : List String) : Bool :=
  pats.any (fun p => containsSub name.data p.data)

/-- `inferAssetType`: ordered keyword rules, first match wins. -/
def inferAssetType (name : String) : String :=
  if containsAny name ["カード", "クレカ", "NICOS"] then "credit"
  else if containsAny name ["借入", "ローン", "未払金"] then "credit"
  else if containsAny name ["証券", "iDeCo", "投資信託", "MMF", "株", "ETF"] then "investment"
  else if containsAny name ["PASMO", "suica", "Suica", "IC"] then "ic_card"
  else if containsAny name ["PayPay", "LINE Pay", "ハチペイ", "メルペイ", "ペイ"] then "qr_pay"
  else if containsAny name ["現金", "お財布", "財布", "封筒", "精算用"] then "cash"
  else if containsAny name ["ゆうちょ", "三菱", "SBI", "ろうきん", "みずほ", "りそな", "大阪商工", "銀行", "金庫"] then "bank"
  else "other"

/-! ### Snapshot aggregator -/

/-- Code-unit lexicographic comparison of character lists — the order
used by JavaScript's default `Array.prototype.sort` comparator on
strings. -/
def lexLeB : List Char → List Char → Bool
  | [], _ => true
  | _ :: _, [] => false
  | a :: as, b :: bs =>
    if a.toNat < b.toNat then true
    else if b.toNat < a.toNat then false
    else lexLeB as bs

/-- Code-unit order on strings. -/
def strLe (a b : String) : Prop := lexLeB a.data b.data = true

instance : DecidableRel strLe := fun a b =>
  inferInstanceAs (Decidable (lexLeB a.data b.data = true))

/-- The month key `` `${tx.year}-${String(tx.month).padStart(2, "0")}` ``. -/
def monthKey (y m : Int) : String :=
  intToStr y ++ "-" ++ (⟨padStart2 (intToStr m).data⟩ : String)

/-- `Map.set`: update the value in place when the key exists, append
otherwise (JavaScript `Map` keeps insertion order). -/
def upsertMonthly (acc : List (String × Int × Int × Int)) (k : String)
    (v : Int × Int × Int) : List (String × Int × Int × Int) :=
  if acc.any (fun p => p.1 = k) then
    acc.map (fun p => if p.1 = k then (k, v) else p)
  else acc ++ [(k, v)]

/-- The `monthlyLast` map of one account: key is the month key, value the
last `(balance, year, month)` recorded for it; initial-balance markers
and zero-year rows are skipped. -/
def monthlyLastOf (txs : List ParsedAssetTransaction) :
    List (String × Int × Int × Int) :=
  txs.foldl (fun acc tx =>
    if tx.isInitial ∨ tx.year = 0 then acc
    else upsertMonthly acc (monthKey tx.year tx.month) (tx.balance, tx.year, tx.month)) []

/-- The walk over the sorted month keys: each snapshot closes at the
stored balance and opens at the previous closing balance (or its own
closing balance for the first month).  The lookup cannot miss because the
keys come from the map itself; the skipping `none` arm is dead code. -/
def walkMonths (assetName : String) (ml : List (String × Int × Int × Int)) :
    List String → Option Int → List MonthlyAssetSnapshot
  | [], _ => []
  | k :: ks, prevClosing =>
    match (ml.find? (fun p => p.1 = k)).map (fun p => p.2) with
    | none => walkMonths assetName ml ks prevClosing
    | some (balance, year, month) =>
      { assetName := assetName, year := year, month := month,
        closingBalance := balance,
        openingBalance := prevClosing.getD balance,
        assetType := inferAssetType assetName } ::
      walkMonths assetName ml ks (some balance)

/-- Per-account snapshot production: collect the monthly-last map, sort
its keys (all distinct, so the stable JavaScript sort and this insertion
sort agree), and walk. -/
def snapshotsForAsset (name : String) (txs : List ParsedAssetTransaction) :
    List MonthlyAssetSnapshot :=
  let ml := monthlyLastOf txs
  walkMonths name ml (List.insertionSort strLe (ml.map (fun p => p.1))) none

/-- `Map` grouping by account name: push to the existing group in place
or append a new group (insertion order of first occurrences). -/
def pushGroup (acc : List (String × List ParsedAssetTransaction)) (k : String)
    (tx : ParsedAssetTransaction) : List (String × List ParsedAssetTransaction) :=
  if acc.any (fun g => g.1 = k) then
    acc.map (fun g => if g.1 = k then (g.1, g.2 ++ [tx]) else g)
  else acc ++ [(k, [tx])]

/-- `byAsset` grouping of `aggregateAssetSnapshots`. -/
def groupByAsset (txs : List ParsedAssetTransaction) :
    List (String × List ParsedAssetTransaction) :=
  txs.foldl (fun acc tx => pushGroup acc tx.assetName tx) []

/-- `aggregateAssetSnapshots`. -/
def aggregateAssetSnapshots (transactions : List ParsedAssetTransaction) :
    List MonthlyAssetSnapshot :=
  (groupByAsset transactions).flatMap (fun g => snapshotsForAsset g.1 g.2)

/-- The chronological key `year * 100 + month` named by the claimed
snapshot invariant. -/
def snapKey (s : MonthlyAssetSnapshot) : Int := 100 * s.year + s.month

/-- The claimed invariant over a snapshot batch: for every account, each
snapshot opens at the closing balance of the immediately preceding (by
`year*100+month`) snapshot of the same account, and a snapshot with no
earlier snapshot of its account opens at its own closing balance. -/
def c2Spec (S : List MonthlyAssetSnapshot) : Prop :=
  (∀ s ∈ S, ∀ u ∈ S, u.assetName = s.assetName → snapKey u < snapKey s →
    (∀ v ∈ S, v.assetName = s.assetName →
      ¬(snapKey u < snapKey v ∧ snapKey v < snapKey s)) →
    s.openingBalance = u.closingBalance) ∧
  (∀ s ∈ S, (∀ u ∈ S, u.assetName = s.assetName → ¬ snapKey u < snapKey s) →
    s.openingBalance = s.closingBalance)

instance (S : List MonthlyAssetSnapshot) : Decidable (c2Spec S) := by
  unfold c2Spec
  infer_instance

/-- Range condition under which the string sort of month keys is
chronological: every non-initial entry with non-zero year has a
four-digit year and an at-most-two-digit month. -/
def entryRangeOk (e : ParsedAssetTransaction) : Prop :=
  e.isInitial = false → e.year ≠ 0 →
    1000 ≤ e.year ∧ e.year ≤ 9999 ∧ 0 ≤ e.month ∧ e.month ≤ 99

/-- Well-formedness of one monthly-last map entry: its key is the month
key of its stored year and month, which lie in the four-digit-year
range. -/
def mlEntryOk (p : String × Int × Int × Int) : Prop :=
  p.1 = monthKey p.2.2.1 p.2.2.2 ∧ 1000 ≤ p.2.2.1 ∧ p.2.2.1 ≤ 9999 ∧
  0 ≤ p.2.2.2 ∧ p.2.2.2 ≤ 99

instance (e : ParsedAssetTransaction) : Decidable (entryRangeOk e) := by
  unfold entryRangeOk
  infer_instance

/-! ### Transfer extractor -/

/-- The sentinel memo marking synthetic transfer rows. -/
def sentinelMemo : String := "__asset_report__"

/-- Modelled from the spec: the source file defining
`extractInvestmentTransfers` and its product-to-account mapping is not
among the sources (only the orchestrator importing it is); the route's
comment names the two investment targets iDeCo and 投資信託. -/
def investmentAccountNames : List String := ["iDeCo", "投資信託"]

/-- Modelled from the spec: `extractInvestmentTransfers` is absent from
the sources.  Per the specification's Transfer Extractor contract it
re-scans the asset-ledger text for transfer-kind rows whose account is an
investment account and emits each as a synthetic transfer transaction
(kind `振替`, memo set to the sentinel, dated and amounted as recorded;
the amount is recorded as income into the investment account, matching
the orchestrator's income-amount deduplication query). -/
def extractInvestmentTransfers (text : String) (fromYear : Int := 2019) :
    List ParsedTransaction :=
  match parseAssetReport text fromYear with
  | none => []
  | some entries =>
    (entries.filter (fun e =>
      !e.isInitial && e.type == "振替" && investmentAccountNames.contains e.assetName)).map
      (fun e => {
        date := e.date, year := e.year, month := e.month, type := "振替",
        category := e.category, itemName := e.itemName, amount := e.amount,
        expenseAmount := 0, incomeAmount := e.amount, assetName := e.assetName,
        tag := "", memo := sentinelMemo, excludeFromPl := true })

/-! ### Import orchestrator -/

/-- A persisted transaction row (`transactions` table): optional columns
are inserted as `NULL` when the parsed field is falsy (empty string). -/
structure TxRow where
  date : String
  year : Int
  month : Int
  type : String
  category : String
  itemName : Option String
  amount : Int
  expenseAmount : Int
  incomeAmount : Int
  assetName : Option String
  tag : Option String
  memo : Option String
  excludeFromPl : Bool
deriving DecidableEq, Repr

/-- `t.field || null`. -/
def orNull (s : String) : Option String := if s = "" then none else some s

/-- The insert values built from a parsed transaction (used both by the
combined bulk insert and by the synthetic-transfer insert). -/
def txRowOfParsed (t : ParsedTransaction) : TxRow :=
  { date := t.date, year := t.year, month := t.month, type := t.type,
    category := t.category, itemName := orNull t.itemName, amount := t.amount,
    expenseAmount := t.expenseAmount, incomeAmount := t.incomeAmount,
    assetName := orNull t.assetName, tag := orNull t.tag, memo := orNull t.memo,
    excludeFromPl := t.excludeFromPl }

/-- Database state: the two persisted tables. -/
structure Db where
  rows : List TxRow
  snaps : List MonthlyAssetSnapshot
deriving DecidableEq, Repr

/-- The structured response of the import route. -/
inductive ImportResult where
  | ok (txInserted txSkipped assetInserted : Nat)
  | error (msg : String)
deriving DecidableEq, Repr

/-- `[...new Set(xs)]`: deduplication keeping first occurrences. -/
def jsSetDedup (l : List String) : List String :=
  l.foldl (fun acc x => if x ∈ acc then acc else acc ++ [x]) []

/-- The period key `` `${t.year}-${t.month}` `` (no zero padding). -/
def ymKey (y m : Int) : String := intToStr y ++ "-" ++ intToStr m

/-- The destructuring `[y, m] = ym.split("-").map(Number)`; `none` when a
component is `NaN` or missing (a `NaN` matches no row in the delete
queries below). -/
def parseYm (ym : String) : Option (Int × Int) :=
  match (splitOnChar '-' ym.data).map jsNumber with
  | some y :: some m :: _ => some (y, m)
  | _ => none

/-- One period delete: delete every row of the key's (year, month). -/
def deletePeriodOfYm (rows : List TxRow) (ym : String) : List TxRow :=
  match parseYm ym with
  | some (y, m) => rows.filter (fun r => !(decide (r.year = y ∧ r.month = m)))
  | none => rows

/-- Whether a row survives the delete of period `ym` (the predicate of
`deletePeriodOfYm`, exposed for reasoning about the delete loop). -/
def keepRowB (ym : String) (r : TxRow) : Bool :=
  match parseYm ym with
  | some (y, m) => !(decide (r.year = y ∧ r.month = m))
  | none => true

/-- The combined-ledger branch of the orchestrator: parse, fail on an
empty batch, delete every affected period, then bulk-insert the batch
(the batches of 500 concatenate to the whole list). -/
def combinedPhase (rows : List TxRow) (text : String) :
    Option (List TxRow × Nat) :=
  let parsed := parseCombinedReport text 2019
  if parsed.isEmpty then none
  else
    let yearMonths := jsSetDedup (parsed.map (fun t => ymKey t.year t.month))
    let rows2 := yearMonths.foldl deletePeriodOfYm rows
    some (rows2 ++ parsed.map txRowOfParsed, parsed.length)

/-- Snapshot upsert keyed on (account, year, month). -/
def upsertSnap (snaps : List MonthlyAssetSnapshot) (s : MonthlyAssetSnapshot) :
    List MonthlyAssetSnapshot :=
  if snaps.any (fun r => r.assetName = s.assetName ∧ r.year = s.year ∧ r.month = s.month) then
    snaps.map (fun r =>
      if r.assetName = s.assetName ∧ r.year = s.year ∧ r.month = s.month then s else r)
  else snaps ++ [s]

/-- Delete the synthetic (sentinel-memo) transfer rows of one period. -/
def deleteSyntheticOfYm (rows : List TxRow) (ym : String) : List TxRow :=
  match parseYm ym with
  | some (y, m) =>
    rows.filter (fun r =>
      !(decide (r.year = y ∧ r.month = m ∧ r.type = "振替" ∧ r.memo = some sentinelMemo)))
  | none => rows

/-- The existence query guarding each synthetic insert: an equivalent
real transfer has the same date, account and income amount, category
`振替`, and a memo that is `NULL` or not the sentinel. -/
def isRealTransferMatch (r : TxRow) (t : ParsedTransaction) : Bool :=
  decide (r.date = t.date ∧ r.assetName = some t.assetName ∧
    r.incomeAmount = t.incomeAmount ∧ r.category = "振替" ∧
    (r.memo = none ∨ r.memo ≠ some sentinelMemo))

/-- A persisted row that is a synthetic (sentinel-memo) transfer for the
same movement as the extracted transfer `t`: same date, account and
income amount (the natural key of the route's deduplication query). -/
def isSyntheticFor (t : ParsedTransaction) (r : TxRow) : Bool :=
  decide (r.memo = some sentinelMemo ∧ r.date = t.date ∧
    r.assetName = orNull t.assetName ∧ r.incomeAmount = t.incomeAmount)

/-- The synthetic-transfer block: delete the sentinel rows of every
touched period, then insert each extracted transfer unless an equivalent
real transfer already exists. -/
def transferPhase (rows : List TxRow) (ts : List ParsedTransaction) :
    List TxRow × Nat :=
  let ymSet := jsSetDedup (ts.map (fun t => ymKey t.year t.month))
  let rows2 := ymSet.foldl deleteSyntheticOfYm rows
  ts.foldl (fun acc t =>
    if (acc.1.filter (fun r => isRealTransferMatch r t)).isEmpty then
      (acc.1 ++ [txRowOfParsed t], acc.2 + 1)
    else acc) (rows2, 0)

/-- The asset-ledger half of `POST` (runs after the combined half). -/
def assetPart (db : Db) (asset : Option String) (txInserted : Nat) :
    Db × ImportResult :=
  match asset with
  | none => (db, .ok txInserted 0 0)
  | some text =>
    match parseAssetReport text 2019 with
    | none => (db, .error "インポートに失敗しました")
    | some entries =>
      let snapshots := aggregateAssetSnapshots entries
      let snaps2 := snapshots.foldl upsertSnap db.snaps
      let ts := extractInvestmentTransfers text 2019
      if ts.isEmpty then
        ({ rows := db.rows, snaps := snaps2 }, .ok txInserted 0 snapshots.length)
      else
        let res := transferPhase db.rows ts
        ({ rows := res.1, snaps := snaps2 },
         .ok txInserted 0 (snapshots.length + res.2))

/-- The import orchestrator `POST`: a validation failure or a thrown
parse error leaves the tables as they are at that point (there is no
transaction wrapping the writes). -/
def POST (db : Db) (combined asset : Option String) : Db × ImportResult :=
  match combined, asset with
  | none, none => (db, .error "ファイルが指定されていません")
  | some text, _ =>
    match combinedPhase db.rows text with
    | none => (db, .error "取引データが見つかりませんでした")
    | some (rows1, n) => assetPart { rows := rows1, snaps := db.snaps } asset n
  | none, _ => assetPart db asset 0

/-! ## Supporting lemmas about the combined-ledger row parser -/

/-- Every successfully parsed combined row carries exactly the values of
its source columns: the amounts are `toInt` of columns 6 and 7, the
derived amount is the expense amount when non-zero and the income amount
otherwise, and the exclude flag is the inverted comparison with `-`. -/
theorem parseCombinedRow_fields (fromYear : Int) (line : String)
    (t : ParsedTransaction) (h : parseCombinedRow fromYear line = some t) :
    t.expenseAmount = toInt ((parseCSVLine line).getD 5 "") ∧
    t.incomeAmount = toInt ((parseCSVLine line).getD 6 "") ∧
    t.amount = (if t.expenseAmount ≠ 0 then t.expenseAmount else t.incomeAmount) ∧
    t.excludeFromPl = decide ((parseCSVLine line).getD 10 "" ≠ "-") := by
  simp only [parseCombinedRow] at h
  repeat' split at h
  all_goals try simp_all
  all_goals try (subst h; simp)
  all_goals (split <;> first | rfl | simp_all)

/-- `toInt` is non-negative whenever its argument, after comma removal
and leading-whitespace skipping, does not start with a minus sign. -/
theorem toInt_nonneg (v : String)
    (h : ((v.data.filter (fun c => c ≠ ',')).dropWhile isJsWhitespace).head? ≠ some '-') :
    0 ≤ toInt v := by
  unfold toInt jsParseInt
  cases hd : (v.data.filter (fun c => c ≠ ',')).dropWhile isJsWhitespace with
  | nil => simp [jsParseIntSigned]
  | cons c rest =>
    have hc : ¬ c = '-' := fun e => h (by rw [hd, e]; rfl)
    simp only [jsParseIntSigned, if_neg hc]
    by_cases hp : c = '+'
    · rw [if_pos hp]
      cases digitsPrefixVal rest <;> simp
    · rw [if_neg hp]
      cases digitsPrefixVal (c :: rest) <;> simp

/-! ## Decimal digits and round-trip lemmas -/

theorem digitChar_toNat (d : Nat) (h : d < 10) : (digitChar d).toNat = 48 + d := by
  interval_cases d <;> decide

theorem digitChar_isDigit (d : Nat) (h : d < 10) : (digitChar d).isDigit = true := by
  interval_cases d <;> decide

theorem digitsToNat_append_one (l : List Char) (c : Char) :
    digitsToNat (l ++ [c]) = digitsToNat l * 10 + (c.toNat - 48) := by
  simp [digitsToNat, List.foldl_append]

theorem natToDigitsAux_spec (fuel : Nat) : ∀ n, n < fuel →
    digitsToNat (natToDigitsAux fuel n) = n ∧
    (natToDigitsAux fuel n).all Char.isDigit = true ∧
    natToDigitsAux fuel n ≠ [] := by
  induction fuel with
  | zero => intro n h; omega
  | succ f ih =>
    intro n h
    unfold natToDigitsAux
    by_cases h10 : n < 10
    · rw [if_pos h10]
      refine ⟨?_, ?_, by simp⟩
      · simp [digitsToNat, digitChar_toNat n h10]
      · simp [digitChar_isDigit n h10]
    · rw [if_neg h10]
      have hlt : n / 10 < f := by omega
      obtain ⟨ih1, ih2, ih3⟩ := ih (n / 10) hlt
      refine ⟨?_, ?_, by simp⟩
      · rw [digitsToNat_append_one, ih1, digitChar_toNat (n % 10) (by omega)]
        omega
      · simp [List.all_append, ih2, digitChar_isDigit (n % 10) (by omega)]

theorem natToDigits_spec (n : Nat) :
    digitsToNat (natToDigits n) = n ∧
    (natToDigits n).all Char.isDigit = true ∧
    natToDigits n ≠ [] :=
  natToDigitsAux_spec (n + 1) n (by omega)

theorem isDigit_ne_minus {c : Char} (h : c.isDigit = true) : c ≠ '-' := by
  intro e
  subst e
  exact absurd h (by decide)

theorem isDigit_ne_plus {c : Char} (h : c.isDigit = true) : c ≠ '+' := by
  intro e
  subst e
  exact absurd h (by decide)

theorem isDigit_not_ws {c : Char} (h : c.isDigit = true) :
    isJsWhitespace c = false := by
  by_contra hw
  simp only [Bool.not_eq_false, isJsWhitespace, Bool.or_eq_true, decide_eq_true_eq] at hw
  rcases hw with ((e | e) | e) | e <;> subst e <;> exact absurd h (by decide)

theorem dropWhile_ws_of_digits (l : List Char) (h : l.all Char.isDigit = true) :
    l.dropWhile isJsWhitespace = l := by
  cases l with
  | nil => rfl
  | cons c rest =>
    rw [List.all_cons, Bool.and_eq_true] at h
    simp [List.dropWhile_cons, isDigit_not_ws h.1]

theorem takeWhile_of_digits (l : List Char) (h : l.all Char.isDigit = true) :
    l.takeWhile Char.isDigit = l := by
  induction l with
  | nil => rfl
  | cons c rest ih =>
    rw [List.all_cons, Bool.and_eq_true] at h
    simp [List.takeWhile_cons, h.1, ih h.2]

theorem jsParseInt_digits (l : List Char) (hne : l ≠ [])
    (h : l.all Char.isDigit = true) :
    jsParseInt l = some ((digitsToNat l : Nat) : Int) := by
  unfold jsParseInt
  rw [dropWhile_ws_of_digits l h]
  cases l with
  | nil => exact absurd rfl hne
  | cons c rest =>
    have hc : c.isDigit = true := by
      rw [List.all_cons, Bool.and_eq_true] at h
      exact h.1
    simp only [jsParseIntSigned, if_neg (isDigit_ne_minus hc),
      if_neg (isDigit_ne_plus hc), digitsPrefixVal, takeWhile_of_digits _ h]
    simp

theorem jsNumber_digits (l : List Char) (hne : l ≠ [])
    (h : l.all Char.isDigit = true) :
    jsNumber l = some ((digitsToNat l : Nat) : Int) := by
  unfold jsNumber
  rw [dropWhile_ws_of_digits l h]
  cases l with
  | nil => exact absurd rfl hne
  | cons c rest =>
    have hc : c.isDigit = true := by
      rw [List.all_cons, Bool.and_eq_true] at h
      exact h.1
    simp only [jsNumberTrimmed, if_neg (isDigit_ne_minus hc),
      if_neg (isDigit_ne_plus hc), if_pos h]

theorem splitOnChar_of_not_mem {sep : Char} {l : List Char} (h : sep ∉ l) :
    splitOnChar sep l = [l] := by
  induction l with
  | nil => rfl
  | cons c rest ih =>
    rw [List.mem_cons, not_or] at h
    have hcs : ¬ c = sep := fun e => h.1 e.symm
    simp only [splitOnChar, ih h.2, if_neg hcs]

theorem splitOnChar_append {sep : Char} (l1 l2 : List Char) (h : sep ∉ l1) :
    splitOnChar sep (l1 ++ sep :: l2) = l1 :: splitOnChar sep l2 := by
  induction l1 with
  | nil => simp [splitOnChar]
  | cons c rest ih =>
    rw [List.mem_cons, not_or] at h
    have hcs : ¬ c = sep := fun e => h.1 e.symm
    simp only [List.cons_append, splitOnChar, List.append_eq, ih h.2, if_neg hcs]

theorem not_minus_mem_natToDigits (n : Nat) : '-' ∉ natToDigits n := by
  intro hmem
  obtain ⟨-, h2, -⟩ := natToDigits_spec n
  exact absurd (List.all_eq_true.mp h2 _ hmem) (by decide)

theorem intToStr_nonneg_data (y : Int) (hy : 0 ≤ y) :
    (intToStr y).data = natToDigits y.natAbs := by
  unfold intToStr
  rw [if_neg (by omega)]

theorem parseYm_ymKey (y m : Int) (hy : 0 ≤ y) (hm : 0 ≤ m) :
    parseYm (ymKey y m) = some (y, m) := by
  obtain ⟨hy1, hy2, hy3⟩ := natToDigits_spec y.natAbs
  obtain ⟨hm1, hm2, hm3⟩ := natToDigits_spec m.natAbs
  have hdata : (ymKey y m).data = natToDigits y.natAbs ++ '-' :: natToDigits m.natAbs := by
    show (intToStr y ++ "-" ++ intToStr m).data = _
    rw [String.data_append, String.data_append,
      intToStr_nonneg_data y hy, intToStr_nonneg_data m hm]
    simp
  unfold parseYm
  rw [hdata, splitOnChar_append _ _ (not_minus_mem_natToDigits _),
    splitOnChar_of_not_mem (not_minus_mem_natToDigits _)]
  simp only [List.map_cons, jsNumber_digits _ hy3 hy2, jsNumber_digits _ hm3 hm2,
    hy1, hm1]
  have : ((y.natAbs : Nat) : Int) = y := by omega
  have hm4 : ((m.natAbs : Nat) : Int) = m := by omega
  rw [this, hm4]

/-! ## Date-shape lemmas and period-replacement lemmas -/

theorem matchDateAt_spec {l : List Char} {y m d : List Char}
    (h : matchDateAt l = some (y, m, d)) :
    y.length = 4 ∧ y.all Char.isDigit = true ∧
    m.length = 2 ∧ m.all Char.isDigit = true := by
  unfold matchDateAt at h
  repeat' split at h
  all_goals try (cases h)
  all_goals simp_all

theorem findDate_spec {l : List Char} {y m d : List Char}
    (h : findDate l = some (y, m, d)) :
    y.length = 4 ∧ y.all Char.isDigit = true ∧
    m.length = 2 ∧ m.all Char.isDigit = true := by
  induction l with
  | nil => cases h
  | cons c rest ih =>
    unfold findDate at h
    cases hm : matchDateAt (c :: rest) with
    | some g =>
      rw [hm] at h
      have hg := Option.some.inj h
      subst hg
      exact matchDateAt_spec hm
    | none =>
      rw [hm] at h
      exact ih h

theorem parseJapaneseDate_shape (raw : String) (h : parseJapaneseDate raw ≠ "") :
    ∃ y m d, findDate raw.data = some (y, m, d) ∧
      parseJapaneseDate raw = ⟨y ++ '-' :: (m ++ '-' :: d)⟩ := by
  unfold parseJapaneseDate at h ⊢
  cases hf : findDate raw.data with
  | none => rw [hf] at h; simp at h
  | some g =>
    obtain ⟨y, m, d⟩ := g
    exact ⟨y, m, d, rfl, by simp⟩

/-- The date-related fields of a successfully parsed combined row: the
date is the normalized date string, and year and month are `parseInt` of
its two slices. -/
theorem parseCombinedRow_date (fromYear : Int) (line : String)
    (t : ParsedTransaction) (h : parseCombinedRow fromYear line = some t) :
    t.date = parseJapaneseDate ((parseCSVLine line).getD 0 "") ∧
    t.date ≠ "" ∧
    jsParseInt (t.date.data.take 4) = some t.year ∧
    jsParseInt ((t.date.data.drop 5).take 2) = some t.month := by
  simp only [parseCombinedRow] at h
  repeat' split at h
  all_goals try simp_all
  all_goals (subst h; simp_all)

/-- Every successfully parsed combined row has non-negative year and
month (both come from all-digit slices of the normalized date). -/
theorem parseCombinedRow_ym_nonneg (fromYear : Int) (line : String)
    (t : ParsedTransaction) (h : parseCombinedRow fromYear line = some t) :
    0 ≤ t.year ∧ 0 ≤ t.month := by
  obtain ⟨hdate, hne, hy, hm⟩ := parseCombinedRow_date fromYear line t h
  rw [hdate] at hne
  obtain ⟨y, m, d, hf, hds⟩ := parseJapaneseDate_shape _ hne
  obtain ⟨hy4, hyd, hm2, hmd⟩ := findDate_spec hf
  rw [hdate, hds] at hy hm
  have hddata : (⟨y ++ '-' :: (m ++ '-' :: d)⟩ : String).data = y ++ '-' :: (m ++ '-' :: d) := rfl
  rw [hddata] at hy hm
  rw [List.take_left' hy4] at hy
  rw [List.append_cons, List.drop_left' (by simp [hy4]), List.take_left' hm2] at hm
  rw [jsParseInt_digits y (by intro e; subst e; simp at hy4) hyd] at hy
  rw [jsParseInt_digits m (by intro e; subst e; simp at hm2) hmd] at hm
  have h1 := Option.some.inj hy
  have h2 := Option.some.inj hm
  omega

theorem deletePeriodOfYm_eq_filter (rows : List TxRow) (ym : String) :
    deletePeriodOfYm rows ym = rows.filter (keepRowB ym) := by
  unfold deletePeriodOfYm keepRowB
  cases parseYm ym with
  | none => simp
  | some p =>
    obtain ⟨y, m⟩ := p
    rfl

theorem foldl_delete_eq_filter (yms : List String) (rows : List TxRow) :
    yms.foldl deletePeriodOfYm rows =
      rows.filter (fun r => yms.all (fun ym => keepRowB ym r)) := by
  induction yms generalizing rows with
  | nil => simp
  | cons ym yms ih =>
    rw [List.foldl_cons, deletePeriodOfYm_eq_filter, ih, List.filter_filter]
    congr 1
    funext r
    simp only [List.all_cons]
    exact Bool.and_comm _ _

theorem jsSetDedup_sub (l : List String) :
    ∀ acc x, (x ∈ l.foldl (fun acc x => if x ∈ acc then acc else acc ++ [x]) acc ↔
      x ∈ acc ∨ x ∈ l) := by
  induction l with
  | nil => intro acc x; simp
  | cons c cs ih =>
    intro acc x
    rw [List.foldl_cons]
    by_cases hc : c ∈ acc
    · rw [if_pos hc, ih]
      simp only [List.mem_cons]
      constructor
      · rintro (h | h) <;> tauto
      · rintro (h | h | h)
        · tauto
        · subst h; tauto
        · tauto
    · rw [if_neg hc, ih]
      simp only [List.mem_append, List.mem_cons, List.mem_singleton]
      tauto

theorem jsSetDedup_mem (l : List String) (x : String) :
    x ∈ jsSetDedup l ↔ x ∈ l := by
  unfold jsSetDedup
  rw [jsSetDedup_sub]
  simp

/-- A freshly inserted row is matched by the delete of its own period
key. -/
theorem keepRow_self_false (t : ParsedTransaction)
    (hy : 0 ≤ t.year) (hm : 0 ≤ t.month) :
    keepRowB (ymKey t.year t.month) (txRowOfParsed t) = false := by
  unfold keepRowB
  rw [parseYm_ymKey _ _ hy hm]
  simp [txRowOfParsed]

/-- Re-running the combined-ledger branch on its own output is the
identity: the second delete removes exactly the rows of the first
insert. -/
theorem combinedPhase_idem (rows rows1 : List TxRow) (C : String) (n : Nat)
    (h : combinedPhase rows C = some (rows1, n)) :
    combinedPhase rows1 C = some (rows1, n) := by
  simp only [combinedPhase] at h ⊢
  by_cases he : (parseCombinedReport C 2019).isEmpty = true
  · rw [if_pos he] at h; cases h
  · rw [if_neg he] at h ⊢
    injection h with h
    rw [Prod.mk.injEq] at h
    obtain ⟨hA, hn⟩ := h
    subst hn
    subst hA
    rw [foldl_delete_eq_filter, foldl_delete_eq_filter, List.filter_append,
      List.filter_filter]
    have hidem : ∀ (P : TxRow → Bool) (l : List TxRow),
        l.filter (fun a => P a && P a) = l.filter P := by
      intro P l
      congr 1
      funext a
      exact Bool.and_self _
    rw [hidem]
    have hnew : (List.map txRowOfParsed (parseCombinedReport C 2019)).filter
        (fun r => (jsSetDedup ((parseCombinedReport C 2019).map
          (fun t => ymKey t.year t.month))).all (fun ym => keepRowB ym r)) = [] := by
      rw [List.filter_eq_nil_iff]
      intro r hr
      rw [List.mem_map] at hr
      obtain ⟨t, ht, hrt⟩ := hr
      subst hrt
      intro hall
      obtain ⟨line, -, hline⟩ :=
        List.mem_filterMap.mp (by simpa only [parseCombinedReport] using ht)
      obtain ⟨hy0, hm0⟩ := parseCombinedRow_ym_nonneg 2019 line t hline
      have hmem : ymKey t.year t.month ∈
          jsSetDedup ((parseCombinedReport C 2019).map (fun t => ymKey t.year t.month)) := by
        rw [jsSetDedup_mem, List.mem_map]
        exact ⟨t, ht, rfl⟩
      have := List.all_eq_true.mp hall _ hmem
      rw [keepRow_self_false t hy0 hm0] at this
      cases this
    rw [hnew, List.append_nil]

/-! ## Transfer-deduplication lemmas -/

theorem orNull_inj {a b : String} (h : orNull a = orNull b) : a = b := by
  unfold orNull at h
  split at h <;> split at h <;> simp_all

/-- A real-transfer match survives unchanged when the matched transfer
is replaced by one with the same movement key. -/
theorem isRealTransferMatch_congr {r : TxRow} {t t' : ParsedTransaction}
    (h : isRealTransferMatch r t = true)
    (hd : t'.date = t.date) (ha : t'.assetName = t.assetName)
    (hi : t'.incomeAmount = t.incomeAmount) :
    isRealTransferMatch r t' = true := by
  unfold isRealTransferMatch at h ⊢
  rw [decide_eq_true_eq] at h
  rw [decide_eq_true_eq, hd, ha, hi]
  exact h

/-- The memo of a really-matching row is not the sentinel. -/
theorem isRealTransferMatch_memo {r : TxRow} {t : ParsedTransaction}
    (h : isRealTransferMatch r t = true) :
    r.memo = none ∨ r.memo ≠ some sentinelMemo := by
  unfold isRealTransferMatch at h
  rw [decide_eq_true_eq] at h
  exact h.2.2.2.2

theorem deleteSyntheticOfYm_subset {rows : List TxRow} {ym : String} {r : TxRow}
    (h : r ∈ deleteSyntheticOfYm rows ym) : r ∈ rows := by
  unfold deleteSyntheticOfYm at h
  cases hp : parseYm ym with
  | none => rw [hp] at h; exact h
  | some p =>
    obtain ⟨y, m⟩ := p
    rw [hp] at h
    exact (List.mem_filter.mp h).1

theorem deleteSynthetic_foldl_subset (yms : List String) :
    ∀ rows r, r ∈ yms.foldl deleteSyntheticOfYm rows → r ∈ rows := by
  induction yms with
  | nil => intro rows r h; exact h
  | cons ym yms ih =>
    intro rows r h
    rw [List.foldl_cons] at h
    exact deleteSyntheticOfYm_subset (ih _ _ h)

theorem deleteSyntheticOfYm_keeps {rows : List TxRow} {ym : String} {r : TxRow}
    (hr : r ∈ rows) (hmemo : r.memo = none ∨ r.memo ≠ some sentinelMemo) :
    r ∈ deleteSyntheticOfYm rows ym := by
  unfold deleteSyntheticOfYm
  cases hp : parseYm ym with
  | none => exact hr
  | some p =>
    obtain ⟨y, m⟩ := p
    refine List.mem_filter.mpr ⟨hr, ?_⟩
    simp only [Bool.not_eq_eq_eq_not, Bool.not_true, decide_eq_false_iff_not]
    rintro ⟨-, -, -, hsent⟩
    rcases hmemo with h0 | h0
    · rw [h0] at hsent; cases hsent
    · exact h0 hsent

theorem deleteSynthetic_foldl_keeps (yms : List String) :
    ∀ rows r, r ∈ rows → (r.memo = none ∨ r.memo ≠ some sentinelMemo) →
      r ∈ yms.foldl deleteSyntheticOfYm rows := by
  induction yms with
  | nil => intro rows r h _; exact h
  | cons ym yms ih =>
    intro rows r h hmemo
    rw [List.foldl_cons]
    exact ih _ _ (deleteSyntheticOfYm_keeps h hmemo) hmemo

/-- The insertion loop of the synthetic-transfer block never creates a
synthetic row for a movement that already has an equivalent real
transfer, and it never removes that real transfer. -/
theorem transferLoop_spec (t : ParsedTransaction) (ts : List ParsedTransaction) :
    ∀ (rows : List TxRow) (k : Nat),
      (∃ r ∈ rows, isRealTransferMatch r t = true) →
      (∀ r ∈ rows, isSyntheticFor t r = false) →
      (∀ r ∈ (ts.foldl (fun acc t =>
          if (acc.1.filter (fun r => isRealTransferMatch r t)).isEmpty then
            (acc.1 ++ [txRowOfParsed t], acc.2 + 1)
          else acc) (rows, k)).1, isSyntheticFor t r = false) ∧
      (∃ r ∈ (ts.foldl (fun acc t =>
          if (acc.1.filter (fun r => isRealTransferMatch r t)).isEmpty then
            (acc.1 ++ [txRowOfParsed t], acc.2 + 1)
          else acc) (rows, k)).1, isRealTransferMatch r t = true) := by
  induction ts with
  | nil => intro rows k hreal hsynth; exact ⟨hsynth, hreal⟩
  | cons t' rest ih =>
    intro rows k hreal hsynth
    rw [List.foldl_cons]
    by_cases hex : (rows.filter (fun r => isRealTransferMatch r t')).isEmpty = true
    · rw [if_pos hex]
      have hnew : isSyntheticFor t (txRowOfParsed t') = false := by
        by_contra hcon
        rw [Bool.not_eq_false, isSyntheticFor, decide_eq_true_eq] at hcon
        obtain ⟨-, hd, ha, hi⟩ := hcon
        obtain ⟨r0, hr0, hm0⟩ := hreal
        have : isRealTransferMatch r0 t' = true :=
          isRealTransferMatch_congr hm0 hd (orNull_inj ha) hi
        rw [List.isEmpty_iff, List.filter_eq_nil_iff] at hex
        exact hex r0 hr0 this
      refine ih (rows ++ [txRowOfParsed t']) (k + 1) ?_ ?_
      · obtain ⟨r0, hr0, hm0⟩ := hreal
        exact ⟨r0, List.mem_append_left _ hr0, hm0⟩
      · intro r hr
        rcases List.mem_append.mp hr with hr | hr
        · exact hsynth r hr
        · rw [List.mem_singleton.mp hr]
          exact hnew
    · rw [if_neg hex]
      exact ih rows k hreal hsynth

/-- The whole synthetic-transfer block (period delete of sentinel rows
followed by the guarded inserts) never leaves a synthetic duplicate of a
movement that has an equivalent real transfer, and keeps the real
transfer. -/
theorem transferPhase_no_duplicate (rows : List TxRow)
    (ts : List ParsedTransaction) (t : ParsedTransaction)
    (hreal : ∃ r ∈ rows, isRealTransferMatch r t = true)
    (hsynth : ∀ r ∈ rows, isSyntheticFor t r = false) :
    (∀ r ∈ (transferPhase rows ts).1, isSyntheticFor t r = false) ∧
    (∃ r ∈ (transferPhase rows ts).1, isRealTransferMatch r t = true) := by
  simp only [transferPhase]
  apply transferLoop_spec
  · obtain ⟨r0, hr0, hm0⟩ := hreal
    exact ⟨r0, deleteSynthetic_foldl_keeps _ _ _ hr0 (isRealTransferMatch_memo hm0), hm0⟩
  · intro r hr
    exact hsynth r (deleteSynthetic_foldl_subset _ _ _ hr)

/-! ## Month-key order lemmas -/

theorem natToDigitsAux_irrel : ∀ f g n, n < f → n < g →
    natToDigitsAux f n = natToDigitsAux g n := by
  intro f
  induction f with
  | zero => intro g n h _; omega
  | succ f ih =>
    intro g n hf hg
    cases g with
    | zero => omega
    | succ g =>
      unfold natToDigitsAux
      by_cases h10 : n < 10
      · rw [if_pos h10, if_pos h10]
      · rw [if_neg h10, if_neg h10, ih g (n / 10) (by omega) (by omega)]

theorem natToDigits_eq (n : Nat) :
    natToDigits n = if n < 10 then [digitChar n]
      else natToDigits (n / 10) ++ [digitChar (n % 10)] := by
  unfold natToDigits
  by_cases h10 : n < 10
  · rw [if_pos h10]
    unfold natToDigitsAux
    rw [if_pos h10]
  · rw [if_neg h10]
    conv_lhs => unfold natToDigitsAux
    rw [if_neg h10]
    congr 1
    exact natToDigitsAux_irrel n (n / 10 + 1) (n / 10) (by omega) (by omega)

theorem natToDigits_four (n : Nat) (h1 : 1000 ≤ n) (h2 : n ≤ 9999) :
    natToDigits n = [digitChar (n / 1000), digitChar (n / 100 % 10),
      digitChar (n / 10 % 10), digitChar (n % 10)] := by
  rw [natToDigits_eq n, if_neg (by omega)]
  rw [natToDigits_eq (n / 10), if_neg (by omega)]
  rw [natToDigits_eq (n / 10 / 10), if_neg (by omega)]
  rw [natToDigits_eq (n / 10 / 10 / 10), if_pos (by omega)]
  have e1 : n / 10 / 10 = n / 100 := by
    rw [Nat.div_div_eq_div_mul]
  have e3 : n / 100 / 10 = n / 1000 := by
    rw [Nat.div_div_eq_div_mul]
  rw [e1, e3]
  simp

theorem padStart2_natToDigits (m : Nat) (h : m ≤ 99) :
    padStart2 (natToDigits m) = [digitChar (m / 10), digitChar (m % 10)] := by
  by_cases h10 : m < 10
  · rw [natToDigits_eq m, if_pos h10]
    unfold padStart2
    rw [if_neg (by simp)]
    have ed : m / 10 = 0 := by omega
    have em : m % 10 = m := by omega
    rw [ed, em]
    have h0 : digitChar 0 = '0' := by decide
    rw [h0]
    rfl
  · rw [natToDigits_eq m, if_neg h10, natToDigits_eq (m / 10), if_pos (by omega)]
    unfold padStart2
    rw [if_pos (by simp)]
    rfl

theorem monthKey_data (y m : Int) (hy : 0 ≤ y) (hm : 0 ≤ m) :
    (monthKey y m).data =
      natToDigits y.natAbs ++ '-' :: padStart2 (natToDigits m.natAbs) := by
  unfold monthKey
  rw [String.data_append, String.data_append, intToStr_nonneg_data y hy]
  have e : (intToStr m).data = natToDigits m.natAbs := intToStr_nonneg_data m hm
  rw [e]
  simp

theorem lexLeB_nil_nil : lexLeB [] [] = true := rfl

theorem lexLeB_cons (a b : Char) (as bs : List Char) :
    lexLeB (a :: as) (b :: bs) = true ↔
      (a.toNat < b.toNat ∨ (a.toNat = b.toNat ∧ lexLeB as bs = true)) := by
  simp only [lexLeB]
  split_ifs with h1 h2
  · simp only [true_iff]
    exact Or.inl h1
  · simp only [false_iff]
    rintro (h | ⟨h, -⟩) <;> omega
  · constructor
    · intro h
      exact Or.inr ⟨by omega, h⟩
    · rintro (h | ⟨-, h⟩)
      · omega
      · exact h

theorem monthKey_le_iff (y1 m1 y2 m2 : Int)
    (hy1 : 1000 ≤ y1) (hy1b : y1 ≤ 9999) (hm1 : 0 ≤ m1) (hm1b : m1 ≤ 99)
    (hy2 : 1000 ≤ y2) (hy2b : y2 ≤ 9999) (hm2 : 0 ≤ m2) (hm2b : m2 ≤ 99) :
    strLe (monthKey y1 m1) (monthKey y2 m2) ↔
      (y1 < y2 ∨ (y1 = y2 ∧ m1 ≤ m2)) := by
  unfold strLe
  rw [monthKey_data y1 m1 (by omega) (by omega),
    monthKey_data y2 m2 (by omega) (by omega),
    natToDigits_four y1.natAbs (by omega) (by omega),
    natToDigits_four y2.natAbs (by omega) (by omega),
    padStart2_natToDigits m1.natAbs (by omega),
    padStart2_natToDigits m2.natAbs (by omega)]
  simp only [List.cons_append, List.nil_append, lexLeB_cons, lexLeB_nil_nil]
  have e : ∀ d : Nat, d < 10 → (digitChar d).toNat = 48 + d := digitChar_toNat
  rw [e (y1.natAbs / 1000) (by omega), e (y2.natAbs / 1000) (by omega),
    e (y1.natAbs / 100 % 10) (by omega), e (y2.natAbs / 100 % 10) (by omega),
    e (y1.natAbs / 10 % 10) (by omega), e (y2.natAbs / 10 % 10) (by omega),
    e (y1.natAbs % 10) (by omega), e (y2.natAbs % 10) (by omega),
    e (m1.natAbs / 10) (by omega), e (m2.natAbs / 10) (by omega),
    e (m1.natAbs % 10) (by omega), e (m2.natAbs % 10) (by omega)]
  simp only [lt_self_iff_false, false_or, eq_self_iff_true, true_and, and_true]
  omega

theorem lexLeB_total : ∀ a b : List Char, lexLeB a b = true ∨ lexLeB b a = true := by
  intro a
  induction a with
  | nil => intro b; left; rfl
  | cons x as ih =>
    intro b
    cases b with
    | nil => right; rfl
    | cons y bs =>
      simp only [lexLeB]
      rcases Nat.lt_trichotomy x.toNat y.toNat with h | h | h
      · left; rw [if_pos h]
      · have h1 : ¬ x.toNat < y.toNat := by omega
        have h2 : ¬ y.toNat < x.toNat := by omega
        rw [if_neg h1, if_neg h2, if_neg h2, if_neg h1]
        exact ih bs
      · right; rw [if_pos h]

theorem lexLeB_trans : ∀ a b c : List Char,
    lexLeB a b = true → lexLeB b c = true → lexLeB a c = true := by
  intro a
  induction a with
  | nil => intro b c _ _; rfl
  | cons x as ih =>
    intro b c hab hbc
    cases b with
    | nil => rw [lexLeB] at hab; cases hab
    | cons y bs =>
      cases c with
      | nil => rw [lexLeB] at hbc; cases hbc
      | cons z cs =>
        simp only [lexLeB] at hab hbc ⊢
        rcases Nat.lt_trichotomy x.toNat y.toNat with h1 | h1 | h1
        · rcases Nat.lt_trichotomy y.toNat z.toNat with h2 | h2 | h2
          · rw [if_pos (by omega)]
          · rw [if_pos (by omega)]
          · rw [if_neg (by omega), if_pos h2] at hbc
            cases hbc
        · rcases Nat.lt_trichotomy y.toNat z.toNat with h2 | h2 | h2
          · rw [if_pos (by omega)]
          · rw [if_neg (by omega), if_neg (by omega)] at hab
            rw [if_neg (by omega), if_neg (by omega)] at hbc
            rw [if_neg (by omega), if_neg (by omega)]
            exact ih bs cs hab hbc
          · rw [if_neg (by omega), if_pos h2] at hbc
            cases hbc
        · rw [if_neg (by omega), if_pos h1] at hab
          cases hab

instance : IsTotal String strLe :=
  ⟨fun a b => lexLeB_total a.data b.data⟩

instance : IsTrans String strLe :=
  ⟨fun a b c => lexLeB_trans a.data b.data c.data⟩

theorem monthKey_lt_of {y1 m1 y2 m2 : Int}
    (hy1 : 1000 ≤ y1) (hy1b : y1 ≤ 9999) (hm1 : 0 ≤ m1) (hm1b : m1 ≤ 99)
    (hy2 : 1000 ≤ y2) (hy2b : y2 ≤ 9999) (hm2 : 0 ≤ m2) (hm2b : m2 ≤ 99)
    (hle : strLe (monthKey y1 m1) (monthKey y2 m2))
    (hne : monthKey y1 m1 ≠ monthKey y2 m2) :
    100 * y1 + m1 < 100 * y2 + m2 := by
  rw [monthKey_le_iff y1 m1 y2 m2 hy1 hy1b hm1 hm1b hy2 hy2b hm2 hm2b] at hle
  rcases hle with h | ⟨hy, hm⟩
  · omega
  · rcases eq_or_lt_of_le hm with he | hlt
    · exact absurd (by rw [hy, he]) hne
    · omega

/-! ## Monthly-last map and grouping invariants -/

theorem upsertMonthly_mem {acc : List (String × Int × Int × Int)}
    {k : String} {v : Int × Int × Int} {q : String × Int × Int × Int}
    (h : q ∈ upsertMonthly acc k v) : q ∈ acc ∨ q = (k, v) := by
  unfold upsertMonthly at h
  split at h
  · obtain ⟨p, hp, he⟩ := List.mem_map.mp h
    by_cases hpk : p.1 = k
    · rw [if_pos hpk] at he
      right
      exact he.symm
    · rw [if_neg hpk] at he
      left
      exact he ▸ hp
  · rcases List.mem_append.mp h with h | h
    · left
      exact h
    · right
      exact List.mem_singleton.mp h

theorem upsertMonthly_keys_nodup {acc : List (String × Int × Int × Int)}
    {k : String} {v : Int × Int × Int}
    (h : (acc.map Prod.fst).Nodup) :
    ((upsertMonthly acc k v).map Prod.fst).Nodup := by
  unfold upsertMonthly
  split
  next hany =>
    have : (acc.map (fun p => if p.1 = k then (k, v) else p)).map Prod.fst =
        acc.map Prod.fst := by
      rw [List.map_map]
      apply List.map_congr_left
      intro p _
      by_cases hpk : p.1 = k
      · simp [hpk]
      · simp [hpk]
    rw [this]
    exact h
  next hany =>
    rw [List.map_append, List.nodup_append]
    refine ⟨h, List.nodup_singleton _, ?_⟩
    intro x hx hxk
    simp only [List.map_cons, List.map_nil, List.mem_singleton] at hxk
    rw [List.mem_map] at hx
    obtain ⟨p, hp, hpx⟩ := hx
    rw [Bool.not_eq_true, List.any_eq_false] at hany
    exact absurd (by rw [hpx, hxk] : p.1 = k) (by simpa using hany p hp)

theorem monthlyLastOf_ok (txs : List ParsedAssetTransaction)
    (hrange : ∀ e ∈ txs, entryRangeOk e) :
    (∀ p ∈ monthlyLastOf txs, mlEntryOk p) ∧
    ((monthlyLastOf txs).map Prod.fst).Nodup := by
  unfold monthlyLastOf
  suffices h : ∀ acc, (∀ p ∈ acc, mlEntryOk p) → (acc.map Prod.fst).Nodup →
      (∀ p ∈ txs.foldl (fun acc tx =>
        if tx.isInitial ∨ tx.year = 0 then acc
        else upsertMonthly acc (monthKey tx.year tx.month)
          (tx.balance, tx.year, tx.month)) acc, mlEntryOk p) ∧
      ((txs.foldl (fun acc tx =>
        if tx.isInitial ∨ tx.year = 0 then acc
        else upsertMonthly acc (monthKey tx.year tx.month)
          (tx.balance, tx.year, tx.month)) acc).map Prod.fst).Nodup by
    exact h [] (by intro p hp; cases hp) (by simp)
  induction txs with
  | nil => intro acc h1 h2; exact ⟨h1, h2⟩
  | cons tx rest ih =>
    intro acc h1 h2
    rw [List.foldl_cons]
    by_cases hskip : (tx.isInitial : Prop) ∨ tx.year = 0
    · rw [if_pos hskip]
      exact ih (fun e he => hrange e (List.mem_cons_of_mem _ he)) acc h1 h2
    · rw [if_neg hskip]
      push_neg at hskip
      have hrg := hrange tx (List.mem_cons_self _ _)
        (by simpa using hskip.1) hskip.2
      refine ih (fun e he => hrange e (List.mem_cons_of_mem _ he)) _ ?_
        (upsertMonthly_keys_nodup h2)
      intro p hp
      rcases upsertMonthly_mem hp with hp | hp
      · exact h1 p hp
      · rw [hp]
        exact ⟨rfl, hrg.1, hrg.2.1, hrg.2.2.1, hrg.2.2.2⟩

theorem pushGroup_content {acc : List (String × List ParsedAssetTransaction)}
    {k : String} {tx : ParsedAssetTransaction}
    {g : String × List ParsedAssetTransaction} {e : ParsedAssetTransaction}
    (hg : g ∈ pushGroup acc k tx) (he : e ∈ g.2) :
    (∃ g0 ∈ acc, e ∈ g0.2) ∨ e = tx := by
  unfold pushGroup at hg
  split at hg
  · obtain ⟨p, hp, hpg⟩ := List.mem_map.mp hg
    by_cases hpk : p.1 = k
    · rw [if_pos hpk] at hpg
      rw [← hpg] at he
      rcases List.mem_append.mp he with he | he
      · exact Or.inl ⟨p, hp, he⟩
      · exact Or.inr (List.mem_singleton.mp he)
    · rw [if_neg hpk] at hpg
      exact Or.inl ⟨p, hp, hpg ▸ he⟩
  · rcases List.mem_append.mp hg with hg | hg
    · exact Or.inl ⟨g, hg, he⟩
    · rw [List.mem_singleton.mp hg] at he
      exact Or.inr (List.mem_singleton.mp he)

theorem pushGroup_keys_nodup {acc : List (String × List ParsedAssetTransaction)}
    {k : String} {tx : ParsedAssetTransaction}
    (h : (acc.map Prod.fst).Nodup) :
    ((pushGroup acc k tx).map Prod.fst).Nodup := by
  unfold pushGroup
  split
  next hany =>
    have : (acc.map (fun g => if g.1 = k then (g.1, g.2 ++ [tx]) else g)).map Prod.fst =
        acc.map Prod.fst := by
      rw [List.map_map]
      apply List.map_congr_left
      intro p _
      by_cases hpk : p.1 = k
      · simp [hpk]
      · simp [hpk]
    rw [this]
    exact h
  next hany =>
    rw [List.map_append, List.nodup_append]
    refine ⟨h, List.nodup_singleton _, ?_⟩
    intro x hx hxk
    simp only [List.map_cons, List.map_nil, List.mem_singleton] at hxk
    rw [List.mem_map] at hx
    obtain ⟨p, hp, hpx⟩ := hx
    rw [Bool.not_eq_true, List.any_eq_false] at hany
    exact absurd (by rw [hpx, hxk] : p.1 = k) (by simpa using hany p hp)

theorem groupByAsset_sub (txs : List ParsedAssetTransaction) :
    ∀ g ∈ groupByAsset txs, ∀ e ∈ g.2, e ∈ txs := by
  unfold groupByAsset
  suffices h : ∀ (l : List ParsedAssetTransaction)
      (acc : List (String × List ParsedAssetTransaction)),
      (∀ g ∈ acc, ∀ e ∈ g.2, e ∈ txs) → l ⊆ txs →
      ∀ g ∈ l.foldl (fun acc tx => pushGroup acc tx.assetName tx) acc,
        ∀ e ∈ g.2, e ∈ txs by
    exact h txs [] (by intro g hg; cases hg) (fun x hx => hx)
  intro l
  induction l with
  | nil => intro acc hacc _ g hg e he; exact hacc g hg e he
  | cons tx rest ih =>
    intro acc hacc hsub g hg e he
    rw [List.foldl_cons] at hg
    refine ih _ ?_ (fun x hx => hsub (List.mem_cons_of_mem _ hx)) g hg e he
    intro g0 hg0 e0 he0
    rcases pushGroup_content hg0 he0 with ⟨g1, hg1, he1⟩ | he1
    · exact hacc g1 hg1 e0 he1
    · rw [he1]
      exact hsub (List.mem_cons_self _ _)

theorem groupByAsset_keys_nodup (txs : List ParsedAssetTransaction) :
    ((groupByAsset txs).map Prod.fst).Nodup := by
  unfold groupByAsset
  suffices h : ∀ (acc : List (String × List ParsedAssetTransaction)),
      (acc.map Prod.fst).Nodup →
      ((txs.foldl (fun acc tx => pushGroup acc tx.assetName tx) acc).map Prod.fst).Nodup by
    exact h [] (by simp)
  induction txs with
  | nil => intro acc h; exact h
  | cons tx rest ih =>
    intro acc h
    rw [List.foldl_cons]
    exact ih _ (pushGroup_keys_nodup h)

/-! ## Snapshot-walk lemmas -/

theorem walkMonths_mem (n : String) (ml : List (String × Int × Int × Int)) :
    ∀ (ks : List String) (prev : Option Int) (s : MonthlyAssetSnapshot),
      s ∈ walkMonths n ml ks prev →
      s.assetName = n ∧
      ∃ k ∈ ks, ∃ p ∈ ml, p.1 = k ∧ p.2.1 = s.closingBalance ∧
        p.2.2.1 = s.year ∧ p.2.2.2 = s.month := by
  intro ks
  induction ks with
  | nil => intro prev s hs; cases hs
  | cons k ks ih =>
    intro prev s hs
    cases hf : (ml.find? (fun p => p.1 = k)).map (fun p => p.2) with
    | none =>
      simp only [walkMonths, hf] at hs
      obtain ⟨hn, k', hk', rest⟩ := ih prev s hs
      exact ⟨hn, k', List.mem_cons_of_mem _ hk', rest⟩
    | some v =>
      obtain ⟨bal, y, mo⟩ := v
      simp only [walkMonths, hf] at hs
      obtain ⟨p, hfind, hp2⟩ := Option.map_eq_some'.mp hf
      rcases List.mem_cons.mp hs with rfl | hs
      · refine ⟨rfl, k, List.mem_cons_self _ _, p,
          List.mem_of_find?_eq_some hfind, ?_, ?_, ?_, ?_⟩
        · simpa using List.find?_some hfind
        · rw [hp2]
        · rw [hp2]
        · rw [hp2]
      · obtain ⟨hn, k', hk', rest⟩ := ih (some bal) s hs
        exact ⟨hn, k', List.mem_cons_of_mem _ hk', rest⟩

theorem walkMonths_pairwise (n : String) (ml : List (String × Int × Int × Int))
    (hml : ∀ p ∈ ml, mlEntryOk p) :
    ∀ (ks : List String) (prev : Option Int),
      ks.Pairwise (fun a b => strLe a b ∧ a ≠ b) →
      (walkMonths n ml ks prev).Pairwise (fun s t => snapKey s < snapKey t) := by
  intro ks
  induction ks with
  | nil => intro prev _; simp [walkMonths]
  | cons k ks ih =>
    intro prev hpw
    obtain ⟨hk, hpwt⟩ := List.pairwise_cons.mp hpw
    cases hf : (ml.find? (fun p => p.1 = k)).map (fun p => p.2) with
    | none =>
      simp only [walkMonths, hf]
      exact ih prev hpwt
    | some v =>
      obtain ⟨bal, y, mo⟩ := v
      simp only [walkMonths, hf]
      rw [List.pairwise_cons]
      refine ⟨?_, ih (some bal) hpwt⟩
      intro t ht
      obtain ⟨-, k', hk', p', hp', hpk', -, hy', hm'⟩ :=
        walkMonths_mem n ml ks (some bal) t ht
      obtain ⟨p, hfind, hp2⟩ := Option.map_eq_some'.mp hf
      have hpml : p ∈ ml := List.mem_of_find?_eq_some hfind
      have hpk : p.1 = k := by simpa using List.find?_some hfind
      obtain ⟨hkey, hr1, hr2, hr3, hr4⟩ := hml p hpml
      obtain ⟨hkey', hr1', hr2', hr3', hr4'⟩ := hml p' hp'
      have hrel := hk k' hk'
      have hy : p.2.2.1 = y := by rw [hp2]
      have hmo : p.2.2.2 = mo := by rw [hp2]
      show 100 * y + mo < snapKey t
      have hkk : monthKey y mo = k := by
        rw [← hy, ← hmo, ← hkey, hpk]
      have hkk' : monthKey t.year t.month = k' := by
        rw [← hy', ← hm', ← hkey', hpk']
      have := @monthKey_lt_of y mo t.year t.month
        (by omega) (by omega) (by omega) (by omega)
        (by omega) (by omega) (by omega) (by omega)
        (by rw [hkk, hkk']; exact hrel.1)
        (by rw [hkk, hkk']; exact hrel.2)
      simpa [snapKey] using this

theorem walkMonths_chain (n : String) (ml : List (String × Int × Int × Int)) :
    ∀ (ks : List String) (prev : Option Int),
      (walkMonths n ml ks prev).Chain' (fun s t => s.closingBalance = t.openingBalance) ∧
      ∀ s, (walkMonths n ml ks prev).head? = some s →
        s.openingBalance = prev.getD s.closingBalance := by
  intro ks
  induction ks with
  | nil =>
    intro prev
    constructor
    · simp [walkMonths]
    · intro s hs
      simp [walkMonths] at hs
  | cons k ks ih =>
    intro prev
    cases hf : (ml.find? (fun p => p.1 = k)).map (fun p => p.2) with
    | none =>
      constructor
      · simp only [walkMonths, hf]
        exact (ih prev).1
      · intro s hs
        simp only [walkMonths, hf] at hs
        exact (ih prev).2 s hs
    | some v =>
      obtain ⟨bal, y, mo⟩ := v
      obtain ⟨ihc, ihh⟩ := ih (some bal)
      constructor
      · simp only [walkMonths, hf]
        rw [List.chain'_cons']
        refine ⟨?_, ihc⟩
        intro t ht
        rw [ihh t (Option.mem_def.mp ht)]
        rfl
      · intro s hs
        simp only [walkMonths, hf, List.head?_cons, Option.some.injEq] at hs
        rw [← hs]

theorem snapshotsForAsset_ok (name : String) (txs : List ParsedAssetTransaction)
    (hrange : ∀ e ∈ txs, entryRangeOk e) :
    (∀ s ∈ snapshotsForAsset name txs, s.assetName = name) ∧
    (snapshotsForAsset name txs).Pairwise (fun s t => snapKey s < snapKey t) ∧
    (snapshotsForAsset name txs).Chain' (fun s t => s.closingBalance = t.openingBalance) ∧
    (∀ s, (snapshotsForAsset name txs).head? = some s →
      s.openingBalance = s.closingBalance) := by
  obtain ⟨hok, hnodup⟩ := monthlyLastOf_ok txs hrange
  have hperm := List.perm_insertionSort strLe ((monthlyLastOf txs).map Prod.fst)
  have hsorted : (List.insertionSort strLe ((monthlyLastOf txs).map Prod.fst)).Pairwise strLe :=
    List.sorted_insertionSort strLe ((monthlyLastOf txs).map Prod.fst)
  have hnd : (List.insertionSort strLe ((monthlyLastOf txs).map Prod.fst)).Nodup :=
    hperm.nodup_iff.mpr hnodup
  have hpw := hsorted.and hnd
  unfold snapshotsForAsset
  refine ⟨?_, walkMonths_pairwise name _ hok _ none hpw, (walkMonths_chain name _ _ none).1, ?_⟩
  · intro s hs
    exact (walkMonths_mem name _ _ none s hs).1
  · intro s hs
    exact (walkMonths_chain name _ _ none).2 s hs

/-! ## Per-account assembly -/

theorem filter_block_eq (a g1 : String) (bl : List MonthlyAssetSnapshot)
    (hnames : ∀ s ∈ bl, s.assetName = g1) :
    bl.filter (fun s => decide (s.assetName = a)) = if g1 = a then bl else [] := by
  by_cases hga : g1 = a
  · rw [if_pos hga]
    apply List.filter_eq_self.mpr
    intro s hs
    rw [decide_eq_true_eq, hnames s hs, hga]
  · rw [if_neg hga]
    apply List.filter_eq_nil_iff.mpr
    intro s hs
    rw [decide_eq_true_eq, hnames s hs]
    exact hga

theorem filter_flatMap_groups (a : String)
    (gs : List (String × List ParsedAssetTransaction))
    (hnd : (gs.map Prod.fst).Nodup) :
    ((gs.flatMap (fun g => snapshotsForAsset g.1 g.2)).filter
      (fun s => decide (s.assetName = a)) = []) ∨
    (∃ g ∈ gs, g.1 = a ∧
      (gs.flatMap (fun g => snapshotsForAsset g.1 g.2)).filter
        (fun s => decide (s.assetName = a)) = snapshotsForAsset a g.2) := by
  induction gs with
  | nil => left; rfl
  | cons g rest ih =>
    rw [List.flatMap_cons, List.filter_append]
    have hnames : ∀ s ∈ snapshotsForAsset g.1 g.2, s.assetName = g.1 := by
      intro s hs
      exact (walkMonths_mem g.1 _ _ none s hs).1
    rw [List.map_cons, List.nodup_cons] at hnd
    by_cases hga : g.1 = a
    · right
      have hrest : (rest.flatMap (fun g => snapshotsForAsset g.1 g.2)).filter
          (fun s => decide (s.assetName = a)) = [] := by
        apply List.filter_eq_nil_iff.mpr
        intro s hs
        obtain ⟨g', hg', hsg'⟩ := List.mem_flatMap.mp hs
        have : s.assetName = g'.1 := (walkMonths_mem g'.1 _ _ none s hsg').1
        rw [decide_eq_true_eq, this]
        intro he
        apply hnd.1
        have hmem : g'.1 ∈ List.map Prod.fst rest := List.mem_map_of_mem Prod.fst hg'
        rw [he, ← hga] at hmem
        exact hmem
      rw [filter_block_eq a g.1 _ hnames, if_pos hga, hrest, List.append_nil]
      exact ⟨g, List.mem_cons_self _ _, hga, by rw [hga]⟩
    · rw [filter_block_eq a g.1 _ hnames, if_neg hga, List.nil_append]
      rcases ih hnd.2 with h | ⟨g', hg', hga', heq⟩
      · left; exact h
      · right; exact ⟨g', List.mem_cons_of_mem _ hg', hga', heq⟩

theorem sorted_chain_immediate :
    ∀ (L : List MonthlyAssetSnapshot),
      L.Pairwise (fun s t => snapKey s < snapKey t) →
      L.Chain' (fun s t => s.closingBalance = t.openingBalance) →
      ∀ s ∈ L, ∀ u ∈ L, snapKey u < snapKey s →
        (∀ v ∈ L, ¬(snapKey u < snapKey v ∧ snapKey v < snapKey s)) →
        s.openingBalance = u.closingBalance := by
  intro L
  induction L with
  | nil => intro _ _ s hs; cases hs
  | cons x L ih =>
    intro hp hc s hs u hu hlt hnob
    obtain ⟨hx, hpL⟩ := List.pairwise_cons.mp hp
    obtain ⟨hhead, hcL⟩ := List.chain'_cons'.mp hc
    rcases List.mem_cons.mp hs with hsx | hs2
    · rcases List.mem_cons.mp hu with hux | hu2
      · rw [hsx, hux] at hlt
        omega
      · have := hx u hu2
        rw [hsx] at hlt
        omega
    · rcases List.mem_cons.mp hu with hux | hu2
      · cases hL2 : L with
        | nil =>
          rw [hL2] at hs2
          cases hs2
        | cons h0 L2 =>
          rw [hL2] at hs2
          rcases List.mem_cons.mp hs2 with hsh | hs3
          · have hh : x.closingBalance = h0.openingBalance := by
              apply hhead
              rw [hL2]
              rfl
            rw [hsh, hux, ← hh]
          · exfalso
            refine hnob h0 ?_ ⟨?_, ?_⟩
            · rw [hL2]
              exact List.mem_cons_of_mem _ (List.mem_cons_self _ _)
            · rw [hux]
              apply hx h0
              rw [hL2]
              exact List.mem_cons_self _ _
            · rw [hL2] at hpL
              exact (List.pairwise_cons.mp hpL).1 s hs3
      · exact ih hpL hcL s hs2 u hu2 hlt
          (fun v hv => hnob v (List.mem_cons_of_mem _ hv))

theorem sorted_head_minimal (L : List MonthlyAssetSnapshot)
    (hp : L.Pairwise (fun s t => snapKey s < snapKey t))
    (hhead : ∀ s, L.head? = some s → s.openingBalance = s.closingBalance) :
    ∀ s ∈ L, (∀ u ∈ L, ¬ snapKey u < snapKey s) →
      s.openingBalance = s.closingBalance := by
  cases L with
  | nil => intro s hs; cases hs
  | cons x L =>
    intro s hs hmin
    rcases List.mem_cons.mp hs with rfl | hs
    · exact hhead s rfl
    · exact absurd ((List.pairwise_cons.mp hp).1 s hs)
        (hmin x (List.mem_cons_self _ _))

/-! ## Claim theorems -/

/-- C1: importing the same combined-ledger file twice in a row leaves
the transaction table (indeed the whole database state and the
response) the same as importing it once, for every combined CSV text
whose parse is non-empty: the second run's per-period deletes remove
exactly the rows the first run inserted. -/
theorem c1_reimport_idempotent (db : Db) (C : String)
    (h : parseCombinedReport C 2019 ≠ []) :
    POST (POST db (some C) none).1 (some C) none = POST db (some C) none := by
  have hne : ¬ (parseCombinedReport C 2019).isEmpty = true := by simpa using h
  obtain ⟨rows1, n, h1⟩ : ∃ r n, combinedPhase db.rows C = some (r, n) := by
    simp only [combinedPhase]
    rw [if_neg hne]
    exact ⟨_, _, rfl⟩
  have h2 := combinedPhase_idem db.rows rows1 C n h1
  simp only [POST, assetPart, h1, h2]

/-- Witness for C1: a one-row combined file imported twice into an empty
database. -/
theorem c1_reimport_idempotent_witness :
    parseCombinedReport "2024年03月05日(火),支出,食費,ランチ,1200,1200,0,楽天カード,,,-" 2019 ≠ [] ∧
    POST (POST ⟨[], []⟩
        (some "2024年03月05日(火),支出,食費,ランチ,1200,1200,0,楽天カード,,,-") none).1
      (some "2024年03月05日(火),支出,食費,ランチ,1200,1200,0,楽天カード,,,-") none =
    POST ⟨[], []⟩
      (some "2024年03月05日(火),支出,食費,ランチ,1200,1200,0,楽天カード,,,-") none :=
  ⟨by decide,
   c1_reimport_idempotent ⟨[], []⟩
     "2024年03月05日(火),支出,食費,ランチ,1200,1200,0,楽天カード,,,-" (by decide)⟩

/-- C2 as stated is false: the aggregator sorts month keys as strings,
and with a three-digit year (999) next to a four-digit year (1000) the
string order is not chronological, so the first-snapshot and
carried-balance conditions fail on this two-entry input. -/
theorem c2_counterexample :
    ¬ c2Spec (aggregateAssetSnapshots
      [⟨"A", "0999-01-01", 999, 1, "支出", "", "", 0, 10, false⟩,
       ⟨"A", "1000-01-01", 1000, 1, "支出", "", "", 0, 20, false⟩]) := by
  decide

/-- C2 amended: for every list of asset-ledger entries whose non-initial,
non-zero-year entries have four-digit years (1000–9999) and months below
100 — as every entry produced by the asset parser with the default
cutoff does — the aggregated snapshots satisfy the claimed invariant:
per account, each snapshot opens at the closing balance of the
immediately preceding (by `year*100+month`) snapshot, and the
chronologically first snapshot opens at its own closing balance. -/
theorem c2_amended_invariant (entries : List ParsedAssetTransaction)
    (hrange : ∀ e ∈ entries, entryRangeOk e) :
    c2Spec (aggregateAssetSnapshots entries) := by
  have hgs := groupByAsset_keys_nodup entries
  have hsub := groupByAsset_sub entries
  have hAgg : aggregateAssetSnapshots entries =
      (groupByAsset entries).flatMap (fun g => snapshotsForAsset g.1 g.2) := rfl
  constructor
  · intro s hs u hu hname hlt hnob
    rcases filter_flatMap_groups s.assetName (groupByAsset entries) hgs with
      hnil | ⟨g, hg, hga, heq⟩
    · exfalso
      have hmem : s ∈ ((groupByAsset entries).flatMap
          (fun g => snapshotsForAsset g.1 g.2)).filter
            (fun t => decide (t.assetName = s.assetName)) :=
        List.mem_filter.mpr ⟨hAgg ▸ hs, by simp⟩
      rw [hnil] at hmem
      cases hmem
    · have hrg : ∀ e ∈ g.2, entryRangeOk e := fun e he => hrange e (hsub g hg e he)
      obtain ⟨-, hpw, hch, -⟩ := snapshotsForAsset_ok s.assetName g.2 hrg
      rw [← heq] at hpw hch
      have hsL : s ∈ ((groupByAsset entries).flatMap
          (fun g => snapshotsForAsset g.1 g.2)).filter
            (fun t => decide (t.assetName = s.assetName)) :=
        List.mem_filter.mpr ⟨hAgg ▸ hs, by simp⟩
      have huL : u ∈ ((groupByAsset entries).flatMap
          (fun g => snapshotsForAsset g.1 g.2)).filter
            (fun t => decide (t.assetName = s.assetName)) :=
        List.mem_filter.mpr ⟨hAgg ▸ hu, by simp [hname]⟩
      refine sorted_chain_immediate _ hpw hch s hsL u huL hlt ?_
      intro v hv
      obtain ⟨hv1, hv2⟩ := List.mem_filter.mp hv
      exact hnob v (hAgg ▸ hv1) (by simpa using hv2)
  · intro s hs hmin
    rcases filter_flatMap_groups s.assetName (groupByAsset entries) hgs with
      hnil | ⟨g, hg, hga, heq⟩
    · exfalso
      have hmem : s ∈ ((groupByAsset entries).flatMap
          (fun g => snapshotsForAsset g.1 g.2)).filter
            (fun t => decide (t.assetName = s.assetName)) :=
        List.mem_filter.mpr ⟨hAgg ▸ hs, by simp⟩
      rw [hnil] at hmem
      cases hmem
    · have hrg : ∀ e ∈ g.2, entryRangeOk e := fun e he => hrange e (hsub g hg e he)
      obtain ⟨-, hpw, -, hhd⟩ := snapshotsForAsset_ok s.assetName g.2 hrg
      rw [← heq] at hpw hhd
      have hsL : s ∈ ((groupByAsset entries).flatMap
          (fun g => snapshotsForAsset g.1 g.2)).filter
            (fun t => decide (t.assetName = s.assetName)) :=
        List.mem_filter.mpr ⟨hAgg ▸ hs, by simp⟩
      refine sorted_head_minimal _ hpw hhd s hsL ?_
      intro v hv
      obtain ⟨hv1, hv2⟩ := List.mem_filter.mp hv
      exact hmin v (hAgg ▸ hv1) (by simpa using hv2)

/-- Witness for C2 amended: a bank account with an initial-balance
marker and two months of activity in range. -/
theorem c2_amended_invariant_witness :
    c2Spec (aggregateAssetSnapshots
      [⟨"三菱UFJ銀行", "", 0, 0, "initial", "", "初期残高", 0, 500000, true⟩,
       ⟨"三菱UFJ銀行", "2024-03-05", 2024, 3, "支出", "食費", "ランチ", 1200, 480000, false⟩,
       ⟨"三菱UFJ銀行", "2024-04-02", 2024, 4, "支出", "食費", "ランチ", 800, 479200, false⟩]) :=
  c2_amended_invariant _ (by decide)

/-- C3: for a combined-ledger row accepted by `parseCombinedRow` (the
body of the `parseCombinedReport` loop), the produced transaction's
`excludeFromPl` is `false` exactly when the exclude column (the trimmed
11th field) is the literal `-`, and `true` for any other value,
including the empty string. -/
theorem c3_exclude_flag_inversion (fromYear : Int) (line : String)
    (t : ParsedTransaction) (h : parseCombinedRow fromYear line = some t) :
    ((parseCSVLine line).getD 10 "" = "-" → t.excludeFromPl = false) ∧
    ((parseCSVLine line).getD 10 "" ≠ "-" → t.excludeFromPl = true) := by
  obtain ⟨-, -, -, hx⟩ := parseCombinedRow_fields fromYear line t h
  constructor <;> intro hv <;>
    simp [List.getD_eq_getElem?_getD, hx, hv] <;>
    simp [List.getD_eq_getElem?_getD] at hv <;> simp [hv]

/-- Witness for C3: the example row of the specification with exclude
column `-`. -/
theorem c3_exclude_flag_inversion_witness :
    ((parseCSVLine "2024年03月05日(火),支出,食費,ランチ,1200,1200,0,楽天カード,,,-").getD 10 "" = "-" →
      (⟨"2024-03-05", 2024, 3, "支出", "食費", "ランチ", 1200, 1200, 0, "楽天カード", "", "", false⟩ :
        ParsedTransaction).excludeFromPl = false) ∧
    ((parseCSVLine "2024年03月05日(火),支出,食費,ランチ,1200,1200,0,楽天カード,,,-").getD 10 "" ≠ "-" →
      (⟨"2024-03-05", 2024, 3, "支出", "食費", "ランチ", 1200, 1200, 0, "楽天カード", "", "", false⟩ :
        ParsedTransaction).excludeFromPl = true) :=
  c3_exclude_flag_inversion 2019
    "2024年03月05日(火),支出,食費,ランチ,1200,1200,0,楽天カード,,,-"
    ⟨"2024-03-05", 2024, 3, "支出", "食費", "ランチ", 1200, 1200, 0, "楽天カード", "", "", false⟩
    (by decide)

/-- C4: given a combined ledger whose parse contains a real transfer
equivalent (by date, account, income amount, category `振替` and
non-sentinel memo) to an extracted investment transfer `t`, running both
imports through the orchestrator leaves no synthetic (sentinel-memo)
transfer row for that movement while the real transfer row is present:
the synthetic insertion is skipped because the equivalent real row
already exists.  The start state is assumed to hold no synthetic row for
the movement (the claim's fresh-import scenario); the orchestrator is
spec-modelled in `extractInvestmentTransfers`, which is absent from the
sources. -/
theorem c4_transfer_dedup (db : Db) (C A : String) (t : ParsedTransaction)
    (ht : t ∈ extractInvestmentTransfers A 2019)
    (hreal : ∃ p ∈ parseCombinedReport C 2019,
      isRealTransferMatch (txRowOfParsed p) t = true)
    (hcleanDb : ∀ r ∈ db.rows, isSyntheticFor t r = false)
    (hcleanBatch : ∀ p ∈ parseCombinedReport C 2019,
      isSyntheticFor t (txRowOfParsed p) = false) :
    (∀ r ∈ (POST db (some C) (some A)).1.rows, isSyntheticFor t r = false) ∧
    (∃ r ∈ (POST db (some C) (some A)).1.rows, isRealTransferMatch r t = true) := by
  obtain ⟨p, hp, hpm⟩ := hreal
  have hne : ¬ (parseCombinedReport C 2019).isEmpty = true := by
    rw [List.isEmpty_iff]
    intro e
    rw [e] at hp
    cases hp
  obtain ⟨rows1, n, hcp, hrows1⟩ : ∃ r n, combinedPhase db.rows C = some (r, n) ∧
      r = (jsSetDedup ((parseCombinedReport C 2019).map
            (fun t => ymKey t.year t.month))).foldl deletePeriodOfYm db.rows ++
          (parseCombinedReport C 2019).map txRowOfParsed := by
    simp only [combinedPhase]
    rw [if_neg hne]
    exact ⟨_, _, rfl, rfl⟩
  have hsynth1 : ∀ r ∈ rows1, isSyntheticFor t r = false := by
    intro r hr
    rw [hrows1] at hr
    rcases List.mem_append.mp hr with hr | hr
    · rw [foldl_delete_eq_filter] at hr
      exact hcleanDb r (List.mem_filter.mp hr).1
    · obtain ⟨q, hq, hqr⟩ := List.mem_map.mp hr
      rw [← hqr]
      exact hcleanBatch q hq
  have hreal1 : ∃ r ∈ rows1, isRealTransferMatch r t = true := by
    refine ⟨txRowOfParsed p, ?_, hpm⟩
    rw [hrows1]
    exact List.mem_append_right _ (List.mem_map_of_mem _ hp)
  cases hpa : parseAssetReport A 2019 with
  | none =>
    rw [extractInvestmentTransfers, hpa] at ht
    cases ht
  | some entries =>
    have hts : ¬ (extractInvestmentTransfers A 2019).isEmpty = true := by
      rw [List.isEmpty_iff]
      intro e
      rw [e] at ht
      cases ht
    simp only [POST, hcp, assetPart, hpa, if_neg hts]
    exact transferPhase_no_duplicate rows1 (extractInvestmentTransfers A 2019) t
      hreal1 hsynth1

/-- Witness for C4: a combined file with a real March 2024 transfer of
100 into iDeCo and an asset file implying the same transfer. -/
theorem c4_transfer_dedup_witness :
    (∀ r ∈ (POST ⟨[], []⟩
        (some "2024年03月05日(火),振替,振替,積立,100,0,100,iDeCo,,,-")
        (some "iDeCo,x,x,x,x,x\n,2024年03月05日(火),振替,振替,積立,100,5000")).1.rows,
      isSyntheticFor
        ⟨"2024-03-05", 2024, 3, "振替", "振替", "積立", 100, 0, 100, "iDeCo", "",
          "__asset_report__", true⟩ r = false) ∧
    (∃ r ∈ (POST ⟨[], []⟩
        (some "2024年03月05日(火),振替,振替,積立,100,0,100,iDeCo,,,-")
        (some "iDeCo,x,x,x,x,x\n,2024年03月05日(火),振替,振替,積立,100,5000")).1.rows,
      isRealTransferMatch r
        ⟨"2024-03-05", 2024, 3, "振替", "振替", "積立", 100, 0, 100, "iDeCo", "",
          "__asset_report__", true⟩ = true) :=
  c4_transfer_dedup ⟨[], []⟩
    "2024年03月05日(火),振替,振替,積立,100,0,100,iDeCo,,,-"
    "iDeCo,x,x,x,x,x\n,2024年03月05日(火),振替,振替,積立,100,5000"
    ⟨"2024-03-05", 2024, 3, "振替", "振替", "積立", 100, 0, 100, "iDeCo", "",
      "__asset_report__", true⟩
    (by decide)
    ⟨⟨"2024-03-05", 2024, 3, "振替", "振替", "積立", 100, 0, 100, "iDeCo", "", "", false⟩,
      by decide, by decide⟩
    (by decide) (by decide)

/-- C5 as stated is false: a row whose expense and income columns are
both `0` is accepted by `parseCombinedReport` with kind `支出` and both
amounts zero, so "exactly one of the two amounts is non-zero" fails for
a non-transfer transaction. -/
theorem c5_counterexample :
    ¬ (∀ t ∈ parseCombinedReport "2024年01月02日(火),支出,食費,ランチ,0,0,0,口座,,,-" 2019,
        t.type ≠ "振替" →
          (t.expenseAmount ≠ 0 ∧ t.incomeAmount = 0) ∨
          (t.expenseAmount = 0 ∧ t.incomeAmount ≠ 0)) := by
  decide

/-- C5 amended: the parser copies the two amount columns through
`toInt` unchanged, so a produced non-transfer transaction has exactly
one non-zero amount whenever its source row's expense and income
columns have exactly one non-zero `toInt` value (the parser itself does
not enforce the invariant). -/
theorem c5_amended_exactly_one (fromYear : Int) (line : String)
    (t : ParsedTransaction) (h : parseCombinedRow fromYear line = some t)
    (hcols : (toInt ((parseCSVLine line).getD 5 "") ≠ 0 ∧ toInt ((parseCSVLine line).getD 6 "") = 0) ∨
             (toInt ((parseCSVLine line).getD 5 "") = 0 ∧ toInt ((parseCSVLine line).getD 6 "") ≠ 0)) :
    t.type ≠ "振替" →
      (t.expenseAmount ≠ 0 ∧ t.incomeAmount = 0) ∨
      (t.expenseAmount = 0 ∧ t.incomeAmount ≠ 0) := by
  intro _
  obtain ⟨he, hi, -, -⟩ := parseCombinedRow_fields fromYear line t h
  rw [he, hi]
  exact hcols

/-- Witness for C5 amended: a concrete expense row with amounts 1200/0. -/
theorem c5_amended_exactly_one_witness :
    ((⟨"2024-03-05", 2024, 3, "支出", "食費", "ランチ", 1200, 1200, 0, "楽天カード", "", "", false⟩ :
        ParsedTransaction).expenseAmount ≠ 0 ∧
     (⟨"2024-03-05", 2024, 3, "支出", "食費", "ランチ", 1200, 1200, 0, "楽天カード", "", "", false⟩ :
        ParsedTransaction).incomeAmount = 0) ∨
    ((⟨"2024-03-05", 2024, 3, "支出", "食費", "ランチ", 1200, 1200, 0, "楽天カード", "", "", false⟩ :
        ParsedTransaction).expenseAmount = 0 ∧
     (⟨"2024-03-05", 2024, 3, "支出", "食費", "ランチ", 1200, 1200, 0, "楽天カード", "", "", false⟩ :
        ParsedTransaction).incomeAmount ≠ 0) :=
  c5_amended_exactly_one 2019
    "2024年03月05日(火),支出,食費,ランチ,1200,1200,0,楽天カード,,,-"
    ⟨"2024-03-05", 2024, 3, "支出", "食費", "ランチ", 1200, 1200, 0, "楽天カード", "", "", false⟩
    (by decide) (by decide) (by decide)

/-- C6: the asset parser is not total.  On a six-column row that reaches
the balance read (here an initial-balance row `口座,-,-,x,y,z`), the
source reads `cols[6]` — `undefined` — and `toInt` throws a `TypeError`
instead of dropping the malformed row; the model returns `none` for the
thrown exception. -/
theorem c6_asset_parser_crash : parseAssetReport "口座,-,-,x,y,z" 2019 = none := by
  decide

/-- C7 as stated is false: `parseInt` accepts a leading minus sign, so a
row whose expense column is `-100` produces a negative expense amount. -/
theorem c7_counterexample :
    ¬ (∀ t ∈ parseCombinedReport "2024年01月02日(火),支出,食費,ランチ,-100,-100,0,口座,,,-" 2019,
        0 ≤ t.expenseAmount ∧ 0 ≤ t.incomeAmount) := by
  decide

/-- C7 amended: the produced amounts are non-negative provided the
expense and income columns do not start with a minus sign (after comma
removal and whitespace skipping); the parser passes negative numerals
through unchanged. -/
theorem c7_amended_nonneg (fromYear : Int) (line : String)
    (t : ParsedTransaction) (h : parseCombinedRow fromYear line = some t)
    (h5 : ((((parseCSVLine line).getD 5 "").data.filter (fun c => c ≠ ',')).dropWhile isJsWhitespace).head? ≠ some '-')
    (h6 : ((((parseCSVLine line).getD 6 "").data.filter (fun c => c ≠ ',')).dropWhile isJsWhitespace).head? ≠ some '-') :
    0 ≤ t.expenseAmount ∧ 0 ≤ t.incomeAmount := by
  obtain ⟨he, hi, -, -⟩ := parseCombinedRow_fields fromYear line t h
  exact ⟨he ▸ toInt_nonneg _ h5, hi ▸ toInt_nonneg _ h6⟩

/-- Witness for C7 amended at a concrete row with columns 1200 and 0. -/
theorem c7_amended_nonneg_witness :
    0 ≤ (⟨"2024-03-05", 2024, 3, "支出", "食費", "ランチ", 1200, 1200, 0, "楽天カード", "", "", false⟩ :
          ParsedTransaction).expenseAmount ∧
    0 ≤ (⟨"2024-03-05", 2024, 3, "支出", "食費", "ランチ", 1200, 1200, 0, "楽天カード", "", "", false⟩ :
          ParsedTransaction).incomeAmount :=
  c7_amended_nonneg 2019
    "2024年03月05日(火),支出,食費,ランチ,1200,1200,0,楽天カード,,,-"
    ⟨"2024-03-05", 2024, 3, "支出", "食費", "ランチ", 1200, 1200, 0, "楽天カード", "", "", false⟩
    (by decide) (by decide) (by decide)

/-- C8: the derived amount of an accepted combined-ledger row is
whichever of the expense and income amounts is non-zero, under the
precondition that exactly one of them is non-zero. -/
theorem c8_derived_amount (fromYear : Int) (line : String)
    (t : ParsedTransaction) (h : parseCombinedRow fromYear line = some t) :
    (t.expenseAmount ≠ 0 ∧ t.incomeAmount = 0 → t.amount = t.expenseAmount) ∧
    (t.expenseAmount = 0 ∧ t.incomeAmount ≠ 0 → t.amount = t.incomeAmount) := by
  obtain ⟨-, -, ha, -⟩ := parseCombinedRow_fields fromYear line t h
  constructor
  · rintro ⟨hne, -⟩
    rw [ha, if_pos hne]
  · rintro ⟨hz, -⟩
    rw [ha, hz]
    simp

/-- Witness for C8 at a concrete expense row. -/
theorem c8_derived_amount_witness :
    ((⟨"2024-03-05", 2024, 3, "支出", "食費", "ランチ", 1200, 1200, 0, "楽天カード", "", "", false⟩ :
        ParsedTransaction).expenseAmount ≠ 0 ∧
     (⟨"2024-03-05", 2024, 3, "支出", "食費", "ランチ", 1200, 1200, 0, "楽天カード", "", "", false⟩ :
        ParsedTransaction).incomeAmount = 0 →
      (⟨"2024-03-05", 2024, 3, "支出", "食費", "ランチ", 1200, 1200, 0, "楽天カード", "", "", false⟩ :
        ParsedTransaction).amount =
      (⟨"2024-03-05", 2024, 3, "支出", "食費", "ランチ", 1200, 1200, 0, "楽天カード", "", "", false⟩ :
        ParsedTransaction).expenseAmount) ∧
    ((⟨"2024-03-05", 2024, 3, "支出", "食費", "ランチ", 1200, 1200, 0, "楽天カード", "", "", false⟩ :
        ParsedTransaction).expenseAmount = 0 ∧
     (⟨"2024-03-05", 2024, 3, "支出", "食費", "ランチ", 1200, 1200, 0, "楽天カード", "", "", false⟩ :
        ParsedTransaction).incomeAmount ≠ 0 →
      (⟨"2024-03-05", 2024, 3, "支出", "食費", "ランチ", 1200, 1200, 0, "楽天カード", "", "", false⟩ :
        ParsedTransaction).amount =
      (⟨"2024-03-05", 2024, 3, "支出", "食費", "ランチ", 1200, 1200, 0, "楽天カード", "", "", false⟩ :
        ParsedTransaction).incomeAmount) :=
  c8_derived_amount 2019
    "2024年03月05日(火),支出,食費,ランチ,1200,1200,0,楽天カード,,,-"
    ⟨"2024-03-05", 2024, 3, "支出", "食費", "ランチ", 1200, 1200, 0, "楽天カード", "", "", false⟩
    (by decide)

/-- C9: the orchestrator fails with a validation error and performs no
write when no file is supplied, and when a combined file parses to zero
transactions it reports the error with the database untouched (the check
precedes every period delete and insert). -/
theorem c9_validation_errors (db : Db) (C : String) (asset : Option String)
    (h : parseCombinedReport C 2019 = []) :
    POST db none none = (db, .error "ファイルが指定されていません") ∧
    POST db (some C) asset = (db, .error "取引データが見つかりませんでした") := by
  refine ⟨rfl, ?_⟩
  simp [POST, combinedPhase, h]

/-- Witness for C9: the empty combined file parses to zero rows. -/
theorem c9_validation_errors_witness :
    POST ⟨[], []⟩ none none = (⟨[], []⟩, .error "ファイルが指定されていません") ∧
    POST ⟨[], []⟩ (some "") none = (⟨[], []⟩, .error "取引データが見つかりませんでした") :=
  c9_validation_errors ⟨[], []⟩ "" none (by decide)

/-- C10: every success response of the orchestrator reports
`transactions.skipped = 0`; no code path increments the skipped
counter. -/
theorem c10_skipped_always_zero (db : Db) (combined asset : Option String)
    (db' : Db) (i s k : Nat)
    (h : POST db combined asset = (db', .ok i s k)) : s = 0 := by
  unfold POST assetPart at h
  repeat' split at h
  all_goals try (dsimp only at h)
  all_goals try (split at h)
  all_goals rw [Prod.mk.injEq] at h
  all_goals obtain ⟨-, h2⟩ := h
  all_goals first
    | (injection h2 with e1 e2 e3; omega)
    | injection h2

/-- Witness for C10: a one-row import reaching the success response. -/
theorem c10_skipped_always_zero_witness : (0 : Nat) = 0 :=
  c10_skipped_always_zero ⟨[], []⟩
    (some "2024年03月05日(火),支出,食費,ランチ,1200,1200,0,楽天カード,,,-") none
    ⟨[⟨"2024-03-05", 2024, 3, "支出", "食費", some "ランチ", 1200, 1200, 0,
       some "楽天カード", none, none, false⟩], []⟩ 1 0 0
    (by decide)

end Kakei
